import Mathlib

/-!
Verification model of the `jsr-ttl-store` TypeScript library (`src/mod.ts`).

The library implements a TTL (time-to-live) overlay on top of a generic
synchronous key/value string store (a `Storage`-like object).  This file is a
shallow embedding of that code:

* strings are modelled as `List Char` (`Str`);
* JavaScript numbers, as they occur on the TTL paths (integral epoch-millisecond
  timestamps, `NaN`, and `Infinity` from the `|| Infinity` fallback), are
  modelled by `JsNum`, with integer arithmetic kept exact;
* the underlying store is an association list (`Storage`), with the
  `length` / `getItem` / `key` / `removeItem` / `setItem` capability surface;
* `Date.now()` is modelled by an explicit `now : ℤ` parameter threaded through
  each operation (every operation is synchronous and reads a single clock);
* JSON-serializable values are modelled by the scalar JSON values `Json`
  (null, booleans, integers, strings), with an executable
  `jsonStringify` / `jsonParse` pair mirroring `JSON.stringify` / `JSON.parse`
  on that fragment (no whitespace, canonical numerals, `"`/`\` escapes).

Each `TTLStore` method from the source becomes a function taking the namespace
`name`, the store contents, and `now` explicitly; methods that mutate return the
new store contents.
-/

/-- Strings of the embedded program. -/
abbrev Str : Type := List Char

/-- JavaScript numbers as needed by the TTL paths: `NaN`, `+Infinity`, or an
exact integer. -/
inductive JsNum where
  | nan : JsNum
  | inf : JsNum
  | int : ℤ → JsNum
deriving DecidableEq, Repr

/-- `isNaN(x)`. -/
def JsNum.isNaN : JsNum → Bool
  | .nan => true
  | _ => false

/-- JavaScript `>` on numbers: any comparison with `NaN` is false. -/
def JsNum.gt : JsNum → JsNum → Bool
  | .nan, _ => false
  | _, .nan => false
  | .inf, .inf => false
  | .inf, .int _ => true
  | .int _, .inf => false
  | .int a, .int b => decide (b < a)

/-- JavaScript falsiness of a number: `NaN` and `0` are falsy. -/
def JsNum.falsy : JsNum → Bool
  | .nan => true
  | .inf => false
  | .int v => decide (v = 0)

/-- `now + x * 1000` with JavaScript number semantics (used to turn a TTL in
seconds into an absolute epoch-millisecond timestamp). -/
def jsAddMul1000 (now : ℤ) : JsNum → JsNum
  | .nan => .nan
  | .inf => .inf
  | .int v => .int (now + v * 1000)

/-- Decimal digit value of a character, if it is one of `'0'..'9'`. -/
def digitVal (c : Char) : Option ℕ :=
  if '0' ≤ c ∧ c ≤ '9' then some (c.toNat - '0'.toNat) else none

/-- Accumulating decimal parser: consumes the whole list or fails. -/
def parseDigitsAux : ℕ → List Char → Option ℕ
  | acc, [] => some acc
  | acc, c :: cs =>
    match digitVal c with
    | some d => parseDigitsAux (10 * acc + d) cs
    | none => none

/-- Parse a nonempty all-digit string. -/
def parseDigits : List Char → Option ℕ
  | [] => none
  | c :: cs => parseDigitsAux 0 (c :: cs)

/-- Model of JavaScript `Number(string)` on the strings this program deals
with: the empty string is `0`, an optional minus sign followed by decimal
digits is the corresponding integer, and anything else is `NaN`. -/
def jsNumber : List Char → JsNum
  | [] => .int 0
  | c :: cs =>
    if c = '-' then
      match parseDigits cs with
      | some n => .int (-(n : ℤ))
      | none => .nan
    else
      match parseDigits (c :: cs) with
      | some n => .int ((n : ℤ))
      | none => .nan

/-- Big-endian decimal digits of `n`, by structural recursion on a fuel bound
(so that it reduces inside the kernel); `natToCharsAux_eq_digits` below relates
it to `Nat.digits`. -/
def natToCharsAux : ℕ → ℕ → List Char
  | _, 0 => []
  | 0, _ => []
  | fuel + 1, n + 1 =>
    natToCharsAux fuel ((n + 1) / 10) ++ [Nat.digitChar ((n + 1) % 10)]

/-- Decimal representation of a natural number. -/
def natToChars (n : ℕ) : List Char :=
  if n = 0 then ['0'] else natToCharsAux n n

/-- Decimal representation of an integer (JavaScript `String(n)` and
`n.toFixed()` for integral `n`). -/
def intRepr (i : ℤ) : List Char :=
  if i < 0 then '-' :: natToChars i.natAbs else natToChars i.toNat

/-- String representation of a `JsNum` (JavaScript number-to-string, which is
also what `toFixed()` returns on integral values, `NaN` and `Infinity`). -/
def jsRepr : JsNum → List Char
  | .nan => ['N', 'a', 'N']
  | .inf => ['I', 'n', 'f', 'i', 'n', 'i', 't', 'y']
  | .int v => intRepr v

/-- `string.indexOf(c)`: index of the first occurrence, `-1` if absent. -/
def jsIndexOf (c : Char) : List Char → ℤ
  | [] => -1
  | x :: xs =>
    if x = c then 0
    else if jsIndexOf c xs < 0 then -1 else jsIndexOf c xs + 1

/-- Scalar JSON values: the model of the JSON-serializable payloads. -/
inductive Json where
  | null : Json
  | bool : Bool → Json
  | num : ℤ → Json
  | str : List Char → Json
deriving DecidableEq, Repr

/-- Escape a JSON string body: `"` and `\` get a backslash. -/
def escapeChars (s : List Char) : List Char :=
  s.foldr (fun c acc => (if c = '"' ∨ c = '\\' then ['\\', c] else [c]) ++ acc) []

/-- The JSON keyword `null`, as characters. -/
def jsonNullChars : List Char := ['n', 'u', 'l', 'l']

/-- The JSON keyword `true`, as characters. -/
def jsonTrueChars : List Char := ['t', 'r', 'u', 'e']

/-- The JSON keyword `false`, as characters. -/
def jsonFalseChars : List Char := ['f', 'a', 'l', 's', 'e']

/-- `JSON.stringify` on scalar JSON values (total on this fragment; the cyclic
structures that make `JSON.stringify` throw are not representable). -/
def jsonStringify : Json → List Char
  | .null => jsonNullChars
  | .bool b => if b then jsonTrueChars else jsonFalseChars
  | .num n => intRepr n
  | .str s => '"' :: (escapeChars s ++ ['"'])

/-- Parse the remainder of a JSON string literal (after the opening quote):
the body followed by the closing quote and nothing else. -/
def parseStringBody : List Char → Option (List Char)
  | [] => none
  | [c] => if c = '"' then some [] else none
  | c :: d :: rest =>
    if c = '"' then none
    else if c = '\\' then
      if d = '"' ∨ d = '\\' then (parseStringBody rest).map (fun t => d :: t)
      else none
    else (parseStringBody (d :: rest)).map (fun t => c :: t)

/-- Parse a JSON integer numeral. -/
def decodeInt : List Char → Option ℤ
  | [] => none
  | c :: cs =>
    if c = '-' then (parseDigits cs).map (fun (n : ℕ) => -(n : ℤ))
    else (parseDigits (c :: cs)).map (fun (n : ℕ) => ((n : ℤ)))

/-- `JSON.parse` on the scalar fragment: accepts exactly the canonical forms
`jsonStringify` produces; everything else fails (returns `none`). -/
def jsonParse (s : List Char) : Option Json :=
  if s = jsonNullChars then some Json.null
  else if s = jsonTrueChars then some (Json.bool true)
  else if s = jsonFalseChars then some (Json.bool false)
  else
    match s with
    | [] => none
    | c :: rest =>
      if c = '"' then (parseStringBody rest).map Json.str
      else (decodeInt (c :: rest)).map Json.num

/-- `tryJson` from the source: `null` for non-string input, `JSON.parse`
otherwise, swallowing parse errors into `null`. -/
def tryJson (value : Option (List Char)) : Option Json :=
  match value with
  | none => none
  | some s => jsonParse s

/-- JavaScript `Number(value)` for a `getItem` result: `Number(null)` is `0`. -/
def jsNumberOpt : Option (List Char) → JsNum
  | none => .int 0
  | some s => jsNumber s

/-- `checkFresh(expireAt, now)` from the source: `-1` never expires, `NaN` is
always stale, otherwise fresh iff strictly in the future. -/
def checkFresh (expireAt : JsNum) (now : ℤ) : Bool :=
  if expireAt = JsNum.int (-1) then true
  else if expireAt.isNaN then false
  else expireAt.gt (JsNum.int now)

/-- The underlying persistent store: an association list of (key, value)
string pairs, modelling the `Storage` capability surface. -/
abbrev Storage : Type := List (Str × Str)

/-- `store.getItem(k)`: value of the first record with key `k`, if any. -/
def Storage.getItem (st : Storage) (k : Str) : Option Str :=
  (st.find? (fun p => decide (p.1 = k))).map (fun p => p.2)

/-- `store.setItem(k, v)`: replace the record in place if the key is present,
otherwise append a new record. -/
def Storage.setItem (st : Storage) (k v : Str) : Storage :=
  if st.any (fun p => decide (p.1 = k)) then
    st.map (fun p => if p.1 = k then (k, v) else p)
  else st ++ [(k, v)]

/-- `store.removeItem(k)`. -/
def Storage.removeItem (st : Storage) (k : Str) : Storage :=
  st.filter (fun p => !(decide (p.1 = k)))

/-- `store.key(i)`: the key of the record at enumeration index `i`. -/
def Storage.key (st : Storage) (i : ℕ) : Option Str :=
  (st.get? i).map (fun p => p.1)

/-- Well-formed store contents: no duplicate keys (guaranteed by the
`Storage` contract of the platform). -/
def Storage.WF (st : Storage) : Prop :=
  (st.map Prod.fst).Nodup

namespace TTLStore

/-- `makeKey` from the source: `` `${this.name}:${key}` ``. -/
def makeKey (name key : Str) : Str := name ++ ':' :: key

/-- `makeDataKey` from the source: `` `${this.name}.${key}` ``. -/
def makeDataKey (name key : Str) : Str := name ++ '.' :: key

/-- The fixed suffix of the next-expiry sentinel key. -/
def nextChars : Str := ['n', 'e', 'x', 't']

/-- `getNext()`: `Number(store.getItem(makeKey('next'))) || Infinity`
(`Number(null)` is `0`, and `0` and `NaN` are falsy). -/
def getNext (name : Str) (st : Storage) : JsNum :=
  if (jsNumberOpt (Storage.getItem st (makeKey name nextChars))).falsy then JsNum.inf
  else jsNumberOpt (Storage.getItem st (makeKey name nextChars))

/-- `$get(key)`: decode the raw record for `key`; the canonical absent result
is `(1, null)` (returned for a missing or empty record, a record with no colon
at index ≥ 1, and a record whose parsed `expireAt` is not fresh). -/
def dollarGet (name : Str) (st : Storage) (now : ℤ) (key : Str) :
    JsNum × Option Str :=
  match Storage.getItem st (makeDataKey name key) with
  | none => (JsNum.int 1, none)
  | some value =>
    if value = [] then (JsNum.int 1, none)
    else if jsIndexOf ':' value < 1 then (JsNum.int 1, none)
    else if !(checkFresh (jsNumber (value.take (jsIndexOf ':' value).toNat)) now) then
      (JsNum.int 1, none)
    else (jsNumber (value.take (jsIndexOf ':' value).toNat),
      some (value.drop ((jsIndexOf ':' value).toNat + 1)))

/-- `$set(key, item, expireAt)`: a `null` item or a stale `expireAt` deletes
the raw record; otherwise write `` `${expireAt}:${item}` `` and, unless the new
`expireAt` is `NaN` or later than the current sentinel, lower the sentinel to
`expireAt.toFixed()`. -/
def dollarSet (name : Str) (st : Storage) (now : ℤ) (key : Str)
    (item : Option Str) (expireAt : JsNum) : Storage :=
  match item with
  | none => Storage.removeItem st (makeDataKey name key)
  | some it =>
    if !(checkFresh expireAt now) then Storage.removeItem st (makeDataKey name key)
    else if expireAt.isNaN ||
        expireAt.gt (getNext name
          (Storage.setItem st (makeDataKey name key) (jsRepr expireAt ++ ':' :: it))) then
      Storage.setItem st (makeDataKey name key) (jsRepr expireAt ++ ':' :: it)
    else
      Storage.setItem
        (Storage.setItem st (makeDataKey name key) (jsRepr expireAt ++ ':' :: it))
        (makeKey name nextChars) (jsRepr expireAt)

/-- `$list()`: enumerate the store's records, keep those whose key starts with
the namespace's data prefix, and map each logical key to its `$get` expireAt.
(The source iterates indices `0 ≤ i < store.length` and reads `store.key(i)`,
which enumerates exactly the records in order; removal order downstream does
not depend on the object-key ordering because deletions of distinct keys
commute.) -/
def dollarList (name : Str) (st : Storage) (now : ℤ) : List (Str × JsNum) :=
  st.filterMap (fun p =>
    if (makeDataKey name []).isPrefixOf p.1 then
      some (p.1.drop (makeDataKey name []).length,
        (dollarGet name st now (p.1.drop (makeDataKey name []).length)).1)
    else none)

/-- `clean()`: if the sentinel is strictly in the future do nothing (O(1) fast
path); otherwise scan all namespace records and delete the stale ones. -/
def clean (name : Str) (st : Storage) (now : ℤ) : Storage :=
  if (getNext name st).gt (JsNum.int now) then st
  else
    (dollarList name st now).foldl
      (fun acc kv =>
        if checkFresh kv.2 now then acc
        else dollarSet name acc now kv.1 none (JsNum.int (-1)))
      st

/-- `setExpireAt(key, expireAt = -1)`: re-write the current item with the new
expiration. -/
def setExpireAt (name : Str) (st : Storage) (now : ℤ) (key : Str)
    (expireAt : JsNum) : Storage :=
  dollarSet name st now key (dollarGet name st now key).2 expireAt

/-- `setExpire(key, expire = -1)`: negative TTL means never expires, otherwise
expire at `now + expire * 1000`. -/
def setExpire (name : Str) (st : Storage) (now : ℤ) (key : Str)
    (expire : JsNum) : Storage :=
  if (JsNum.int 0).gt expire then setExpireAt name st now key (JsNum.int (-1))
  else setExpireAt name st now key (jsAddMul1000 now expire)

/-- `getItem(key)`: trigger `clean()`, then decode and deserialize.  Returns
the value (`none` models JavaScript `null`) and the store contents after the
triggered cleanup. -/
def getItem (name : Str) (st : Storage) (now : ℤ) (key : Str) :
    Option Json × Storage :=
  (tryJson (dollarGet name (clean name st now) now key).2, clean name st now)

/-- `removeItem(key)`: `$set(key, null, -1)`. -/
def removeItem (name : Str) (st : Storage) (now : ℤ) (key : Str) : Storage :=
  dollarSet name st now key none (JsNum.int (-1))

/-- `setItemUntil(key, value, expireAt = -1)`: serialize and `$set`.  (On the
scalar JSON fragment `JSON.stringify` cannot throw, so the `try` is inert.) -/
def setItemUntil (name : Str) (st : Storage) (now : ℤ) (key : Str)
    (value : Json) (expireAt : JsNum) : Storage :=
  dollarSet name st now key (some (jsonStringify value)) expireAt

/-- `setItem(key, value, expire = -1)`: negative TTL means never expires,
otherwise until `now + expire * 1000`. -/
def setItem (name : Str) (st : Storage) (now : ℤ) (key : Str)
    (value : Json) (expire : JsNum) : Storage :=
  if (JsNum.int 0).gt expire then setItemUntil name st now key value (JsNum.int (-1))
  else setItemUntil name st now key value (jsAddMul1000 now expire)

/-- `updateItem(key, value)`: re-serialize under the expiration `$get`
currently reports. -/
def updateItem (name : Str) (st : Storage) (now : ℤ) (key : Str)
    (value : Json) : Storage :=
  setItemUntil name st now key value (dollarGet name st now key).1

end TTLStore

/-- A call on the public facade (the store-mutating view; `getItem`'s store
effect is the `clean()` it triggers, and the constructor's effect is
`clean()` as well). -/
inductive Op where
  | opSetItem (key : Str) (value : Json) (expire : JsNum)
  | opSetItemUntil (key : Str) (value : Json) (expireAt : JsNum)
  | opUpdateItem (key : Str) (value : Json)
  | opSetExpire (key : Str) (expire : JsNum)
  | opSetExpireAt (key : Str) (expireAt : JsNum)
  | opRemoveItem (key : Str)
  | opGetItem (key : Str)
  | opClean
deriving DecidableEq, Repr

/-- Store contents after one facade call. -/
def applyOp (name : Str) (st : Storage) (now : ℤ) : Op → Storage
  | .opSetItem k v e => TTLStore.setItem name st now k v e
  | .opSetItemUntil k v e => TTLStore.setItemUntil name st now k v e
  | .opUpdateItem k v => TTLStore.updateItem name st now k v
  | .opSetExpire k e => TTLStore.setExpire name st now k e
  | .opSetExpireAt k e => TTLStore.setExpireAt name st now k e
  | .opRemoveItem k => TTLStore.removeItem name st now k
  | .opGetItem k => (TTLStore.getItem name st now k).2
  | .opClean => TTLStore.clean name st now

/-- The next-expiry-tracker invariant, in its inductive form: if the sentinel
is absent or unusable (`getNext` falls back to `Infinity`) there is no fresh
entry at all, and if `getNext` reports `s` then every fresh entry's decoded
`expireAt` is at least `s`. -/
def TrackerInv (name : Str) (st : Storage) (now : ℤ) : Prop :=
  (TTLStore.getNext name st = JsNum.inf →
    ∀ k, (TTLStore.dollarGet name st now k).2 = none) ∧
  (∀ s, TTLStore.getNext name st = JsNum.int s →
    ∀ k e it, TTLStore.dollarGet name st now k = (JsNum.int e, some it) → s ≤ e)

/-- The keys a cleanup scan over the listing `L` keeps: a store key survives
iff every stale listed entry has a different data key. -/
def staleKeep (name : Str) (now : ℤ) (L : List (Str × JsNum)) (key : Str) : Bool :=
  L.all (fun kv => checkFresh kv.2 now || !(decide (key = TTLStore.makeDataKey name kv.1)))

/-! ### The decimal representation round-trips through the parser -/

theorem digitVal_digitChar {d : ℕ} (h : d < 10) :
    digitVal (Nat.digitChar d) = some d := by
  interval_cases d <;> decide

theorem parseDigitsAux_append (acc : ℕ) (a b : List Char) :
    parseDigitsAux acc (a ++ b) =
      match parseDigitsAux acc a with
      | some r => parseDigitsAux r b
      | none => none := by
  induction a generalizing acc with
  | nil => simp [parseDigitsAux]
  | cons c cs ih =>
    simp only [List.cons_append, parseDigitsAux]
    cases digitVal c with
    | none => rfl
    | some d => exact ih _

theorem parseDigitsAux_rev_digits (D : List ℕ) (hD : ∀ d ∈ D, d < 10) (acc : ℕ) :
    parseDigitsAux acc (D.reverse.map Nat.digitChar) =
      some (acc * 10 ^ D.length + Nat.ofDigits 10 D) := by
  induction D generalizing acc with
  | nil => simp [parseDigitsAux, Nat.ofDigits]
  | cons d T ih =>
    have hd : d < 10 := hD d (by simp)
    have hT : ∀ x ∈ T, x < 10 := fun x hx => hD x (by simp [hx])
    rw [List.reverse_cons, List.map_append, parseDigitsAux_append, ih hT acc]
    simp only [List.map_cons, List.map_nil, parseDigitsAux, digitVal_digitChar hd,
      Nat.ofDigits_cons, List.length_cons]
    congr 1
    ring

theorem natToCharsAux_eq_digits :
    ∀ fuel n : ℕ, n ≤ fuel →
      natToCharsAux fuel n = (Nat.digits 10 n).reverse.map Nat.digitChar := by
  intro fuel
  induction fuel with
  | zero =>
    intro n hn
    interval_cases n
    rw [Nat.digits_zero]
    rfl
  | succ fuel ih =>
    intro n hn
    cases n with
    | zero =>
      rw [Nat.digits_zero]
      rfl
    | succ m =>
      rw [show natToCharsAux (fuel + 1) (m + 1)
          = natToCharsAux fuel ((m + 1) / 10) ++ [Nat.digitChar ((m + 1) % 10)]
          from rfl]
      rw [ih ((m + 1) / 10) (by omega)]
      rw [Nat.digits_def' (b := 10) (by norm_num) (Nat.succ_pos m)]
      rw [List.reverse_cons, List.map_append]
      rfl

theorem natToChars_eq (n : ℕ) :
    natToChars n
      = if n = 0 then ['0'] else (Nat.digits 10 n).reverse.map Nat.digitChar := by
  unfold natToChars
  by_cases h : n = 0
  · rw [if_pos h, if_pos h]
  · rw [if_neg h, if_neg h, natToCharsAux_eq_digits n n (le_refl n)]

theorem natToChars_ne_nil (n : ℕ) : natToChars n ≠ [] := by
  rw [natToChars_eq]
  split
  · simp
  · rename_i h
    intro hc
    rcases List.map_eq_nil_iff.mp hc with h2
    exact Nat.digits_ne_nil_iff_ne_zero.mpr h (List.reverse_eq_nil_iff.mp h2)

theorem mem_natToChars {n : ℕ} {c : Char} (hc : c ∈ natToChars n) :
    ∃ d, d < 10 ∧ c = Nat.digitChar d := by
  rw [natToChars_eq] at hc
  split at hc
  · refine ⟨0, by norm_num, ?_⟩
    simpa using hc
  · rcases List.mem_map.mp hc with ⟨d, hd, rfl⟩
    exact ⟨d, Nat.digits_lt_base (by norm_num) (List.mem_reverse.mp hd), rfl⟩

theorem parseDigits_natToChars (n : ℕ) : parseDigits (natToChars n) = some n := by
  by_cases h0 : n = 0
  · subst h0; decide
  · have hlt : ∀ d ∈ Nat.digits 10 n, d < 10 :=
      fun d hd => Nat.digits_lt_base (by norm_num) hd
    have hval := parseDigitsAux_rev_digits (Nat.digits 10 n) hlt 0
    rw [Nat.ofDigits_digits, Nat.zero_mul, Nat.zero_add] at hval
    have hM : natToChars n = (Nat.digits 10 n).reverse.map Nat.digitChar := by
      rw [natToChars_eq, if_neg h0]
    cases hc : natToChars n with
    | nil => exact absurd hc (natToChars_ne_nil n)
    | cons c cs =>
      have : parseDigitsAux 0 (c :: cs) = some n := by rw [← hc, hM]; exact hval
      simpa [parseDigits] using this

theorem head_natToChars_ne_minus {n : ℕ} {c : Char} {cs : List Char}
    (h : natToChars n = c :: cs) : c ≠ '-' := by
  rcases mem_natToChars (h ▸ List.mem_cons_self c cs) with ⟨d, hd, rfl⟩
  interval_cases d <;> decide

theorem jsNumber_natToChars (n : ℕ) : jsNumber (natToChars n) = JsNum.int n := by
  cases hM : natToChars n with
  | nil => exact absurd hM (natToChars_ne_nil n)
  | cons c cs =>
    have hc : c ≠ '-' := head_natToChars_ne_minus hM
    have hp : parseDigits (c :: cs) = some n := hM ▸ parseDigits_natToChars n
    simp [jsNumber, if_neg hc, hp]

theorem jsNumber_intRepr (i : ℤ) : jsNumber (intRepr i) = JsNum.int i := by
  unfold intRepr
  split
  · rename_i h
    have hthis : parseDigits (natToChars i.natAbs) = some i.natAbs :=
      parseDigits_natToChars _
    simp only [jsNumber, if_pos rfl, if_true, ite_true, hthis]
    congr 1
    omega
  · rename_i h
    rw [jsNumber_natToChars]
    congr 1
    omega

theorem decodeInt_intRepr (i : ℤ) : decodeInt (intRepr i) = some i := by
  unfold intRepr
  split
  · rename_i h
    simp only [decodeInt, if_pos rfl, if_true, ite_true, parseDigits_natToChars,
      Option.map_some']
    congr 1
    omega
  · rename_i h
    cases hM : natToChars i.toNat with
    | nil => exact absurd hM (natToChars_ne_nil _)
    | cons c cs =>
      have hc : c ≠ '-' := head_natToChars_ne_minus hM
      have hp : parseDigits (c :: cs) = some i.toNat := hM ▸ parseDigits_natToChars _
      simp only [decodeInt, if_neg hc, hp, Option.map_some']
      congr 1
      omega

theorem intRepr_ne_nil (i : ℤ) : intRepr i ≠ [] := by
  unfold intRepr
  split
  · simp
  · exact natToChars_ne_nil _

theorem mem_intRepr {i : ℤ} {c : Char} (hc : c ∈ intRepr i) :
    c = '-' ∨ ∃ d, d < 10 ∧ c = Nat.digitChar d := by
  unfold intRepr at hc
  split at hc
  · rcases List.mem_cons.mp hc with h | h
    · exact Or.inl h
    · exact Or.inr (mem_natToChars h)
  · exact Or.inr (mem_natToChars hc)

theorem colon_not_mem_intRepr (i : ℤ) : ':' ∉ intRepr i := by
  intro hc
  rcases mem_intRepr hc with h | ⟨d, hd, he⟩
  · exact absurd h (by decide)
  · revert he
    interval_cases d <;> decide

theorem intRepr_head_not {i : ℤ} {c : Char} {rest : List Char}
    (h : intRepr i = c :: rest) : c ≠ 'n' ∧ c ≠ 't' ∧ c ≠ 'f' ∧ c ≠ '"' := by
  rcases mem_intRepr (h ▸ List.mem_cons_self c rest) with h1 | ⟨d, hd, rfl⟩
  · subst h1; decide
  · interval_cases d <;> decide

/-! ### `indexOf` and the colon-split of encoded records -/

theorem jsIndexOf_append_colon (a b : List Char) (ha : ':' ∉ a) :
    jsIndexOf ':' (a ++ ':' :: b) = (a.length : ℤ) := by
  induction a with
  | nil => simp [jsIndexOf]
  | cons x xs ih =>
    have hx : x ≠ ':' := fun h => ha (h ▸ List.mem_cons_self x xs)
    have hxs : ':' ∉ xs := fun h => ha (List.mem_cons_of_mem x h)
    simp only [List.cons_append, jsIndexOf, List.append_eq, if_neg hx, ih hxs]
    rw [if_neg (by omega)]
    simp only [List.length_cons]
    push_cast
    ring

/-! ### The scalar JSON codec round-trips -/

theorem parseStringBody_escape (v : List Char) :
    parseStringBody (escapeChars v ++ ['"']) = some v := by
  induction v with
  | nil => rfl
  | cons c t ih =>
    by_cases hc : c = '"' ∨ c = '\\'
    · have he : escapeChars (c :: t) = '\\' :: c :: escapeChars t := by
        simp [escapeChars, hc]
      rw [he]
      have h1 : ('\\' : Char) ≠ '"' := by decide
      show parseStringBody ('\\' :: c :: (escapeChars t ++ ['"'])) = some (c :: t)
      rw [parseStringBody, if_neg h1, if_pos rfl, if_pos hc, ih]
      rfl
    · push_neg at hc
      have he : escapeChars (c :: t) = c :: escapeChars t := by
        simp [escapeChars, hc.1, hc.2]
      rw [he]
      obtain ⟨d, rest, hE⟩ : ∃ d rest, escapeChars t ++ ['"'] = d :: rest := by
        cases hE : escapeChars t ++ ['"'] with
        | nil => exact absurd hE (by simp)
        | cons d rest => exact ⟨d, rest, rfl⟩
      rw [hE] at ih
      show parseStringBody (c :: (escapeChars t ++ ['"'])) = some (c :: t)
      rw [hE, parseStringBody, if_neg hc.1, if_neg hc.2, ih]
      rfl

theorem jsonParse_stringify (j : Json) : jsonParse (jsonStringify j) = some j := by
  cases j with
  | null => decide
  | bool b => cases b <;> decide
  | num n =>
    show jsonParse (intRepr n) = some (Json.num n)
    obtain ⟨c, rest, hcr⟩ : ∃ c rest, intRepr n = c :: rest := by
      cases hc : intRepr n with
      | nil => exact absurd hc (intRepr_ne_nil n)
      | cons c r => exact ⟨c, r, rfl⟩
    have hh := intRepr_head_not hcr
    have h1 : intRepr n ≠ jsonNullChars := by
      rw [hcr, show jsonNullChars = ['n', 'u', 'l', 'l'] from rfl]
      intro hx; injection hx with hx1 _; exact hh.1 hx1
    have h2 : intRepr n ≠ jsonTrueChars := by
      rw [hcr, show jsonTrueChars = ['t', 'r', 'u', 'e'] from rfl]
      intro hx; injection hx with hx1 _; exact hh.2.1 hx1
    have h3 : intRepr n ≠ jsonFalseChars := by
      rw [hcr, show jsonFalseChars = ['f', 'a', 'l', 's', 'e'] from rfl]
      intro hx; injection hx with hx1 _; exact hh.2.2.1 hx1
    unfold jsonParse
    rw [if_neg h1, if_neg h2, if_neg h3, hcr]
    simp only [if_neg hh.2.2.2]
    rw [← hcr, decodeInt_intRepr]
    rfl
  | str v =>
    show jsonParse ('"' :: (escapeChars v ++ ['"'])) = some (Json.str v)
    have h1 : ('"' :: (escapeChars v ++ ['"'])) ≠ jsonNullChars := by
      rw [show jsonNullChars = ['n', 'u', 'l', 'l'] from rfl]
      intro hx; injection hx with hx1 _; exact absurd hx1 (by decide)
    have h2 : ('"' :: (escapeChars v ++ ['"'])) ≠ jsonTrueChars := by
      rw [show jsonTrueChars = ['t', 'r', 'u', 'e'] from rfl]
      intro hx; injection hx with hx1 _; exact absurd hx1 (by decide)
    have h3 : ('"' :: (escapeChars v ++ ['"'])) ≠ jsonFalseChars := by
      rw [show jsonFalseChars = ['f', 'a', 'l', 's', 'e'] from rfl]
      intro hx; injection hx with hx1 _; exact absurd hx1 (by decide)
    unfold jsonParse
    rw [if_neg h1, if_neg h2, if_neg h3]
    simp only [if_pos rfl, if_true, ite_true, parseStringBody_escape]
    rfl

/-! ### Storage lemmas -/

theorem find?_cons_eq_ite {α : Type} (p : α → Bool) (a : α) (l : List α) :
    List.find? p (a :: l) = if p a then some a else List.find? p l := by
  rw [List.find?_cons]
  cases h : p a <;> simp [h]

theorem find?_key_map_replace (st : Storage) (k v : Str) :
    ((st.map (fun p => if p.1 = k then (k, v) else p)).find? (fun p => decide (p.1 = k)))
      = if st.any (fun p => decide (p.1 = k)) then some (k, v) else none := by
  induction st with
  | nil => simp
  | cons p ps ih =>
    rw [List.map_cons, List.any_cons]
    by_cases hp : p.1 = k
    · rw [if_pos hp, find?_cons_eq_ite, if_pos (by simp), if_pos (by simp [hp])]
    · rw [if_neg hp, find?_cons_eq_ite, if_neg (by simp [hp]), ih]
      have hor : (decide (p.1 = k) || ps.any fun q => decide (q.1 = k))
          = (ps.any fun q => decide (q.1 = k)) := by simp [hp]
      rw [hor]

theorem Storage.getItem_setItem_self (st : Storage) (k v : Str) :
    Storage.getItem (Storage.setItem st k v) k = some v := by
  unfold Storage.setItem Storage.getItem
  split
  · rename_i hany
    rw [find?_key_map_replace, if_pos hany]
    rfl
  · rename_i hany
    have hnone : st.find? (fun p => decide (p.1 = k)) = none := by
      rw [List.find?_eq_none]
      intro x hx hpx
      exact hany (List.any_eq_true.mpr ⟨x, hx, hpx⟩)
    rw [List.find?_append, hnone, Option.none_or, find?_cons_eq_ite, if_pos (by simp)]
    rfl

theorem Storage.getItem_setItem_ne (st : Storage) (k v k2 : Str) (hne : k2 ≠ k) :
    Storage.getItem (Storage.setItem st k v) k2 = Storage.getItem st k2 := by
  unfold Storage.setItem Storage.getItem
  split
  · rename_i hany
    clear hany
    congr 1
    induction st with
    | nil => rfl
    | cons p ps ih =>
      rw [List.map_cons]
      by_cases hp : p.1 = k
      · rw [if_pos hp, find?_cons_eq_ite, find?_cons_eq_ite,
          if_neg (by simp only [decide_eq_true_eq]; exact fun h => hne h.symm),
          if_neg (by simp only [hp, decide_eq_true_eq]; exact fun h => hne h.symm)]
        exact ih
      · rw [if_neg hp, find?_cons_eq_ite, find?_cons_eq_ite]
        by_cases hq : p.1 = k2
        · rw [if_pos (by simp [hq]), if_pos (by simp [hq])]
        · rw [if_neg (by simp [hq]), if_neg (by simp [hq])]
          exact ih
  · rw [List.find?_append]
    have h0 : List.find? (fun p => decide (p.1 = k2)) [(k, v)] = none := by
      rw [find?_cons_eq_ite,
        if_neg (by simp only [decide_eq_true_eq]; exact fun h => hne h.symm)]
      rfl
    rw [h0, Option.or_none]

theorem Storage.getItem_removeItem_self (st : Storage) (k : Str) :
    Storage.getItem (Storage.removeItem st k) k = none := by
  unfold Storage.getItem Storage.removeItem
  rw [Option.map_eq_none', List.find?_eq_none]
  intro x hx
  have := List.of_mem_filter hx
  simp only [Bool.not_eq_true', decide_eq_false_iff_not] at this
  simpa using this

theorem Storage.getItem_removeItem_ne (st : Storage) (k k2 : Str) (hne : k2 ≠ k) :
    Storage.getItem (Storage.removeItem st k) k2 = Storage.getItem st k2 := by
  unfold Storage.getItem Storage.removeItem
  congr 1
  induction st with
  | nil => rfl
  | cons p ps ih =>
    rw [List.filter_cons]
    by_cases hp : p.1 = k
    · rw [if_neg (by simp [hp])]
      have hr : List.find? (fun q => decide (q.1 = k2)) (p :: ps)
          = List.find? (fun q => decide (q.1 = k2)) ps := by
        rw [find?_cons_eq_ite,
          if_neg (by simp only [hp, decide_eq_true_eq]; exact fun h => hne h.symm)]
      rw [hr]
      exact ih
    · rw [if_pos (by simp [hp]), find?_cons_eq_ite, find?_cons_eq_ite]
      by_cases hq : p.1 = k2
      · rw [if_pos (by simp [hq]), if_pos (by simp [hq])]
      · rw [if_neg (by simp [hq]), if_neg (by simp [hq])]
        exact ih

theorem isSome_getItem_cons_of_eq {p : Str × Str} {ps : Storage} {k : Str}
    (hp : p.1 = k) : (Storage.getItem (p :: ps) k).isSome = true := by
  unfold Storage.getItem
  rw [find?_cons_eq_ite, if_pos (by simp [hp])]
  rfl

theorem Storage.length_removeItem (st : Storage) (k : Str) (hWF : Storage.WF st) :
    (Storage.removeItem st k).length =
      if (Storage.getItem st k).isSome then st.length - 1 else st.length := by
  induction st with
  | nil => rfl
  | cons p ps ih =>
    have hWF2 : Storage.WF ps := by
      unfold Storage.WF at hWF ⊢
      rw [List.map_cons, List.nodup_cons] at hWF
      exact hWF.2
    have hnotin : p.1 ∉ ps.map Prod.fst := by
      unfold Storage.WF at hWF
      rw [List.map_cons, List.nodup_cons] at hWF
      exact hWF.1
    by_cases hp : p.1 = k
    · have hfilter : List.filter (fun q => !(decide (q.1 = k))) ps = ps := by
        rw [List.filter_eq_self]
        intro x hx
        have hx1 : x.1 ≠ k := fun hxk =>
          hnotin (hp ▸ hxk ▸ List.mem_map_of_mem Prod.fst hx)
        simp [hx1]
      rw [isSome_getItem_cons_of_eq hp, if_pos rfl]
      unfold Storage.removeItem
      rw [List.filter_cons, if_neg (by simp [hp]), hfilter]
      simp
    · have hget : Storage.getItem (p :: ps) k = Storage.getItem ps k := by
        unfold Storage.getItem
        rw [find?_cons_eq_ite, if_neg (by simp [hp])]
      unfold Storage.removeItem at ih ⊢
      rw [List.filter_cons, if_pos (by simp [hp]), hget, List.length_cons,
        List.length_cons, ih hWF2]
      by_cases hs : (Storage.getItem ps k).isSome
      · rw [if_pos hs, if_pos hs]
        have h1 : 1 ≤ ps.length := by
          rcases Option.isSome_iff_exists.mp hs with ⟨w, hw⟩
          unfold Storage.getItem at hw
          rcases Option.map_eq_some'.mp hw with ⟨q, hq, _⟩
          exact List.length_pos.mpr (List.ne_nil_of_mem (List.mem_of_find?_eq_some hq))
        omega
      · rw [if_neg hs, if_neg hs]

/-! ### Key namespacing facts -/

theorem makeKey_ne_makeDataKey (name a b : Str) :
    TTLStore.makeKey name a ≠ TTLStore.makeDataKey name b := by
  unfold TTLStore.makeKey TTLStore.makeDataKey
  intro h
  have h2 := List.append_cancel_left h
  injection h2 with h3 _
  exact absurd h3 (by decide)

theorem makeDataKey_inj {name k1 k2 : Str}
    (h : TTLStore.makeDataKey name k1 = TTLStore.makeDataKey name k2) : k1 = k2 := by
  unfold TTLStore.makeDataKey at h
  have h2 := List.append_cancel_left h
  injection h2

theorem makeDataKey_eq_pre_append (name k : Str) :
    TTLStore.makeDataKey name k = TTLStore.makeDataKey name [] ++ k := by
  unfold TTLStore.makeDataKey
  simp

/-! ### `$get` decode lemmas -/

theorem dollarGet_congr {name : Str} {st1 st2 : Storage} {now : ℤ} {key : Str}
    (h : Storage.getItem st1 (TTLStore.makeDataKey name key)
       = Storage.getItem st2 (TTLStore.makeDataKey name key)) :
    TTLStore.dollarGet name st1 now key = TTLStore.dollarGet name st2 now key := by
  unfold TTLStore.dollarGet
  rw [h]

theorem dollarGet_of_getItem_none {name : Str} {st : Storage} {now : ℤ} {key : Str}
    (h : Storage.getItem st (TTLStore.makeDataKey name key) = none) :
    TTLStore.dollarGet name st now key = (JsNum.int 1, none) := by
  unfold TTLStore.dollarGet
  rw [h]

theorem dollarGet_of_record {name : Str} {st : Storage} {now : ℤ} {key : Str}
    {a pl : Str} (ha : ':' ∉ a) (hne : a ≠ [])
    (h : Storage.getItem st (TTLStore.makeDataKey name key) = some (a ++ ':' :: pl)) :
    TTLStore.dollarGet name st now key =
      if checkFresh (jsNumber a) now then (jsNumber a, some pl)
      else (JsNum.int 1, none) := by
  have hlen : 1 ≤ a.length := by
    cases a with
    | nil => exact absurd rfl hne
    | cons x xs => simp
  have hidx := jsIndexOf_append_colon a pl ha
  have htake : (a ++ ':' :: pl).take ((jsIndexOf ':' (a ++ ':' :: pl)).toNat) = a := by
    rw [hidx, Int.toNat_ofNat, List.take_left]
  have hdrop : (a ++ ':' :: pl).drop ((jsIndexOf ':' (a ++ ':' :: pl)).toNat + 1) = pl := by
    rw [hidx, Int.toNat_ofNat]
    rw [show a ++ ':' :: pl = (a ++ [':']) ++ pl by simp]
    exact List.drop_left' (by simp)
  have h1 : ¬(a ++ ':' :: pl = []) := by simp
  have h2 : ¬(jsIndexOf ':' (a ++ ':' :: pl) < 1) := by rw [hidx]; omega
  unfold TTLStore.dollarGet
  rw [h]
  dsimp only
  rw [if_neg h1, if_neg h2, htake, hdrop]
  cases hfr : checkFresh (jsNumber a) now <;> simp [hfr]

theorem dollarGet_fresh_of_some {name : Str} {st : Storage} {now : ℤ} {key : Str}
    {e : JsNum} {it : Str} (h : TTLStore.dollarGet name st now key = (e, some it)) :
    checkFresh e now = true := by
  unfold TTLStore.dollarGet at h
  cases hrec : Storage.getItem st (TTLStore.makeDataKey name key) with
  | none => rw [hrec] at h; exact absurd h (by simp)
  | some value =>
    rw [hrec] at h
    dsimp only at h
    by_cases h1 : value = []
    · rw [if_pos h1] at h; exact absurd h (by simp)
    · rw [if_neg h1] at h
      by_cases h2 : jsIndexOf ':' value < 1
      · rw [if_pos h2] at h; exact absurd h (by simp)
      · rw [if_neg h2] at h
        cases hfr : checkFresh (jsNumber (value.take (jsIndexOf ':' value).toNat)) now with
        | false => rw [if_pos (by simp [hfr])] at h; exact absurd h (by simp)
        | true =>
          rw [if_neg (by simp [hfr])] at h
          injection h with he _
          rw [he] at hfr
          exact hfr

theorem dollarGet_snd_none_of_not_fresh {name : Str} {st : Storage} {now : ℤ} {key : Str}
    (h : checkFresh (TTLStore.dollarGet name st now key).1 now = false) :
    (TTLStore.dollarGet name st now key).2 = none := by
  cases hg : TTLStore.dollarGet name st now key with
  | mk e it =>
    cases it with
    | none => rfl
    | some s => exact absurd (dollarGet_fresh_of_some hg) (by rw [hg] at h; simp [h])

/-! ### `$list` membership -/

theorem mem_dollarList {name : Str} {st : Storage} {now : ℤ} {kv : Str × JsNum}
    (h : kv ∈ TTLStore.dollarList name st now) :
    (∃ p, p ∈ st ∧ p.1 = TTLStore.makeDataKey name kv.1) ∧
      kv.2 = (TTLStore.dollarGet name st now kv.1).1 := by
  unfold TTLStore.dollarList at h
  rcases List.mem_filterMap.mp h with ⟨p, hp, hf⟩
  by_cases hpre : (TTLStore.makeDataKey name []).isPrefixOf p.1
  · rw [if_pos hpre] at hf
    rcases List.isPrefixOf_iff_prefix.mp hpre with ⟨t, ht⟩
    have hdrop : p.1.drop (TTLStore.makeDataKey name []).length = t := by
      rw [← ht, List.drop_left]
    rw [hdrop] at hf
    injection hf with hf
    constructor
    · refine ⟨p, hp, ?_⟩
      rw [← hf, makeDataKey_eq_pre_append, ht]
    · rw [← hf]
  · rw [if_neg hpre] at hf
    exact absurd hf (by simp)

theorem dataKey_mem_dollarList {name : Str} {st : Storage} (now : ℤ) {k : Str}
    {raw : Str} (h : Storage.getItem st (TTLStore.makeDataKey name k) = some raw) :
    (k, (TTLStore.dollarGet name st now k).1) ∈ TTLStore.dollarList name st now := by
  unfold Storage.getItem at h
  rcases Option.map_eq_some'.mp h with ⟨p, hfind, _⟩
  have hmem := List.mem_of_find?_eq_some hfind
  have hkey : p.1 = TTLStore.makeDataKey name k := by
    simpa using List.find?_some hfind
  unfold TTLStore.dollarList
  refine List.mem_filterMap.mpr ⟨p, hmem, ?_⟩
  have happ : TTLStore.makeDataKey name [] ++ k = TTLStore.makeDataKey name k :=
    (makeDataKey_eq_pre_append name k).symm
  have hpre : (TTLStore.makeDataKey name []).isPrefixOf p.1 := by
    rw [hkey]
    exact List.isPrefixOf_iff_prefix.mpr ⟨k, happ⟩
  have hd : (TTLStore.makeDataKey name k).drop (TTLStore.makeDataKey name []).length
      = k := by
    conv_lhs => rw [← happ]
    exact List.drop_left _ _
  rw [if_pos hpre, hkey, hd]

/-! ### The cleanup fold is a filter -/

theorem dollarSet_none_eq_removeItem (name : Str) (st : Storage) (now : ℤ)
    (key : Str) (e : JsNum) :
    TTLStore.dollarSet name st now key none e
      = Storage.removeItem st (TTLStore.makeDataKey name key) := rfl

theorem cleanFold_eq_filter (name : Str) (now : ℤ) (L : List (Str × JsNum))
    (st : Storage) :
    L.foldl (fun acc kv =>
        if checkFresh kv.2 now then acc
        else TTLStore.dollarSet name acc now kv.1 none (JsNum.int (-1))) st
      = st.filter (fun p => staleKeep name now L p.1) := by
  induction L generalizing st with
  | nil =>
    simp only [List.foldl_nil, staleKeep, List.all_nil]
    exact (List.filter_true st).symm
  | cons kv L ih =>
    rw [List.foldl_cons]
    by_cases hf : checkFresh kv.2 now
    · rw [if_pos hf, ih]
      apply List.filter_congr
      intro p _
      simp [staleKeep, hf]
    · rw [if_neg hf, dollarSet_none_eq_removeItem, ih]
      unfold Storage.removeItem
      rw [List.filter_filter]
      apply List.filter_congr
      intro p _
      simp only [staleKeep, List.all_cons, hf, Bool.false_or]
      rw [Bool.and_comm]

theorem clean_eq_of_fastpath {name : Str} {st : Storage} {now : ℤ}
    (h : (TTLStore.getNext name st).gt (JsNum.int now) = true) :
    TTLStore.clean name st now = st := by
  unfold TTLStore.clean
  rw [if_pos h]

theorem clean_eq_filter_of_scan {name : Str} {st : Storage} {now : ℤ}
    (h : (TTLStore.getNext name st).gt (JsNum.int now) = false) :
    TTLStore.clean name st now
      = st.filter (fun p => staleKeep name now (TTLStore.dollarList name st now) p.1) := by
  unfold TTLStore.clean
  rw [if_neg (by simp [h]), cleanFold_eq_filter]

/-! ### `find?` over a key-uniform filter -/

theorem find?_filter_keyfun (st : Storage) (key : Str) (q : Str → Bool) :
    List.find? (fun p => decide (p.1 = key)) (st.filter (fun p => q p.1))
      = if q key then List.find? (fun p => decide (p.1 = key)) st else none := by
  induction st with
  | nil => simp
  | cons p ps ih =>
    rw [List.filter_cons]
    by_cases hp : p.1 = key
    · by_cases hq : q key
      · rw [if_pos (show q p.1 = true by rw [hp]; exact hq)]
        rw [find?_cons_eq_ite, if_pos (by simp [hp]), if_pos hq,
          find?_cons_eq_ite, if_pos (by simp [hp])]
      · rw [if_neg (show ¬(q p.1 = true) by rw [hp]; exact hq), ih,
          if_neg hq, if_neg hq]
    · by_cases hq2 : q p.1
      · rw [if_pos hq2, find?_cons_eq_ite, if_neg (by simp [hp]), ih]
        by_cases hk : q key
        · rw [if_pos hk, if_pos hk, find?_cons_eq_ite, if_neg (by simp [hp])]
        · rw [if_neg hk, if_neg hk]
      · rw [if_neg hq2, ih]
        by_cases hk : q key
        · rw [if_pos hk, if_pos hk, find?_cons_eq_ite, if_neg (by simp [hp])]
        · rw [if_neg hk, if_neg hk]

theorem getItem_filter_keyfun (st : Storage) (key : Str) (q : Str → Bool) :
    Storage.getItem (st.filter (fun p => q p.1)) key
      = if q key then Storage.getItem st key else none := by
  unfold Storage.getItem
  rw [find?_filter_keyfun]
  by_cases hk : q key
  · rw [if_pos hk, if_pos hk]
  · rw [if_neg hk, if_neg hk]
    rfl

/-! ### clean: record preservation and removal -/

theorem getItem_clean_cases (name : Str) (st : Storage) (now : ℤ) (key : Str) :
    Storage.getItem (TTLStore.clean name st now) key = Storage.getItem st key ∨
      Storage.getItem (TTLStore.clean name st now) key = none := by
  cases hfp : (TTLStore.getNext name st).gt (JsNum.int now) with
  | true => exact Or.inl (by rw [clean_eq_of_fastpath hfp])
  | false =>
    rw [clean_eq_filter_of_scan hfp, getItem_filter_keyfun]
    by_cases hk : staleKeep name now (TTLStore.dollarList name st now) key
    · exact Or.inl (by rw [if_pos hk])
    · exact Or.inr (by rw [if_neg hk])

theorem clean_getItem_none_mono {name : Str} {st : Storage} {now : ℤ} {key : Str}
    (h : Storage.getItem st key = none) :
    Storage.getItem (TTLStore.clean name st now) key = none := by
  rcases getItem_clean_cases name st now key with hc | hc
  · rw [hc, h]
  · exact hc

theorem clean_getItem_of_fresh {name : Str} {st : Storage} {now : ℤ} {k : Str}
    (h : checkFresh (TTLStore.dollarGet name st now k).1 now = true) :
    Storage.getItem (TTLStore.clean name st now) (TTLStore.makeDataKey name k)
      = Storage.getItem st (TTLStore.makeDataKey name k) := by
  cases hfp : (TTLStore.getNext name st).gt (JsNum.int now) with
  | true => rw [clean_eq_of_fastpath hfp]
  | false =>
    rw [clean_eq_filter_of_scan hfp, getItem_filter_keyfun]
    have hkeep : staleKeep name now (TTLStore.dollarList name st now)
        (TTLStore.makeDataKey name k) = true := by
      unfold staleKeep
      rw [List.all_eq_true]
      intro kv hkv
      by_cases heq : TTLStore.makeDataKey name k = TTLStore.makeDataKey name kv.1
      · have hk1 : kv.1 = k := (makeDataKey_inj heq).symm
        have hval := (mem_dollarList hkv).2
        rw [hk1] at hval
        simp [hval, h]
      · simp [heq]
    rw [if_pos hkeep]

theorem clean_getItem_none_of_stale {name : Str} {st : Storage} {now : ℤ} {k : Str}
    {raw : Str} (hrec : Storage.getItem st (TTLStore.makeDataKey name k) = some raw)
    (hstale : checkFresh (TTLStore.dollarGet name st now k).1 now = false)
    (hfp : (TTLStore.getNext name st).gt (JsNum.int now) = false) :
    Storage.getItem (TTLStore.clean name st now) (TTLStore.makeDataKey name k)
      = none := by
  rw [clean_eq_filter_of_scan hfp, getItem_filter_keyfun]
  have hnot : ¬(staleKeep name now (TTLStore.dollarList name st now)
      (TTLStore.makeDataKey name k) = true) := by
    intro hall
    unfold staleKeep at hall
    have hmem := dataKey_mem_dollarList now hrec
    have h2 := List.all_eq_true.mp hall _ hmem
    simp only [Bool.or_eq_true, Bool.not_eq_true', decide_eq_false_iff_not] at h2
    rcases h2 with h2 | h2
    · rw [hstale] at h2
      exact absurd h2 (by simp)
    · exact h2 trivial
  rw [if_neg hnot]

/-! ### `getNext` lemmas -/

theorem getNext_congr {name : Str} {st1 st2 : Storage}
    (h : Storage.getItem st1 (TTLStore.makeKey name TTLStore.nextChars)
       = Storage.getItem st2 (TTLStore.makeKey name TTLStore.nextChars)) :
    TTLStore.getNext name st1 = TTLStore.getNext name st2 := by
  unfold TTLStore.getNext
  rw [h]

theorem getNext_setItem_data (name : Str) (st : Storage) (k raw : Str) :
    TTLStore.getNext name (Storage.setItem st (TTLStore.makeDataKey name k) raw)
      = TTLStore.getNext name st :=
  getNext_congr
    (Storage.getItem_setItem_ne st _ raw _ (makeKey_ne_makeDataKey name _ k))

theorem getNext_removeItem_data (name : Str) (st : Storage) (k : Str) :
    TTLStore.getNext name (Storage.removeItem st (TTLStore.makeDataKey name k))
      = TTLStore.getNext name st :=
  getNext_congr
    (Storage.getItem_removeItem_ne st _ _ (makeKey_ne_makeDataKey name _ k))

theorem getNext_setItem_sentinel (name : Str) (st : Storage) (e : ℤ) :
    TTLStore.getNext name
        (Storage.setItem st (TTLStore.makeKey name TTLStore.nextChars) (intRepr e))
      = if e = 0 then JsNum.inf else JsNum.int e := by
  unfold TTLStore.getNext
  rw [Storage.getItem_setItem_self]
  simp only [jsNumberOpt, jsNumber_intRepr, JsNum.falsy]
  by_cases he : e = 0
  · rw [if_pos (by simp [he]), if_pos he]
  · rw [if_neg (by simp [he]), if_neg he]

theorem getNext_setItem_sentinel_inf (name : Str) (st : Storage) :
    TTLStore.getNext name
        (Storage.setItem st (TTLStore.makeKey name TTLStore.nextChars)
          (jsRepr JsNum.inf))
      = JsNum.inf := by
  unfold TTLStore.getNext
  rw [Storage.getItem_setItem_self]
  decide

theorem getNext_ne_nan (name : Str) (st : Storage) :
    TTLStore.getNext name st ≠ JsNum.nan := by
  unfold TTLStore.getNext
  by_cases h : (jsNumberOpt
      (Storage.getItem st (TTLStore.makeKey name TTLStore.nextChars))).falsy
  · rw [if_pos h]
    simp
  · rw [if_neg h]
    intro hc
    rw [hc] at h
    exact h rfl

theorem getNext_clean (name : Str) (st : Storage) (now : ℤ) :
    TTLStore.getNext name (TTLStore.clean name st now) = TTLStore.getNext name st := by
  cases hfp : (TTLStore.getNext name st).gt (JsNum.int now) with
  | true => rw [clean_eq_of_fastpath hfp]
  | false =>
    apply getNext_congr
    rw [clean_eq_filter_of_scan hfp, getItem_filter_keyfun]
    have hkeep : staleKeep name now (TTLStore.dollarList name st now)
        (TTLStore.makeKey name TTLStore.nextChars) = true := by
      unfold staleKeep
      rw [List.all_eq_true]
      intro kv _
      simp [makeKey_ne_makeDataKey name TTLStore.nextChars kv.1]
    rw [if_pos hkeep]

/-! ### `JsNum` computation facts -/

theorem checkFresh_nan (now : ℤ) : checkFresh JsNum.nan now = false := rfl

theorem checkFresh_inf (now : ℤ) : checkFresh JsNum.inf now = true := rfl

theorem isNaN_int (v : ℤ) : (JsNum.int v).isNaN = false := rfl

theorem isNaN_inf : JsNum.inf.isNaN = false := rfl

theorem int_gt_int (a b : ℤ) : (JsNum.int a).gt (JsNum.int b) = decide (b < a) := rfl

theorem int_gt_inf (a : ℤ) : (JsNum.int a).gt JsNum.inf = false := rfl

theorem inf_gt_int (b : ℤ) : JsNum.inf.gt (JsNum.int b) = true := rfl

theorem inf_gt_inf : JsNum.inf.gt JsNum.inf = false := rfl

theorem checkFresh_int_iff {v now : ℤ} :
    checkFresh (JsNum.int v) now = true ↔ (v = -1 ∨ now < v) := by
  unfold checkFresh
  by_cases hv : v = -1
  · subst hv
    simp
  · have hne : JsNum.int v ≠ JsNum.int (-1) := by simp [hv]
    rw [if_neg hne]
    simp [JsNum.isNaN, JsNum.gt, hv]

theorem checkFresh_int_ne_zero {v now : ℤ} (h0 : 0 ≤ now)
    (hf : checkFresh (JsNum.int v) now = true) : v ≠ 0 := by
  rcases checkFresh_int_iff.mp hf with h | h <;> omega

/-! ### `$set` path descriptions -/

theorem dollarSet_stale_eq {name : Str} {st : Storage} {now : ℤ} {k it : Str}
    {e : JsNum} (hf : checkFresh e now = false) :
    TTLStore.dollarSet name st now k (some it) e
      = Storage.removeItem st (TTLStore.makeDataKey name k) := by
  unfold TTLStore.dollarSet
  dsimp only
  rw [if_pos (by simp [hf])]

theorem dollarSet_write_eq {name : Str} {st : Storage} {now : ℤ} {k it : Str}
    {e : JsNum} (hf : checkFresh e now = true) :
    TTLStore.dollarSet name st now k (some it) e =
      if e.isNaN || e.gt (TTLStore.getNext name st) then
        Storage.setItem st (TTLStore.makeDataKey name k) (jsRepr e ++ ':' :: it)
      else
        Storage.setItem
          (Storage.setItem st (TTLStore.makeDataKey name k) (jsRepr e ++ ':' :: it))
          (TTLStore.makeKey name TTLStore.nextChars) (jsRepr e) := by
  unfold TTLStore.dollarSet
  dsimp only
  rw [if_neg (by simp [hf]), getNext_setItem_data]

theorem getItem_dollarSet_write_self {name : Str} {st : Storage} {now : ℤ}
    {k it : Str} {e : JsNum} (hf : checkFresh e now = true) :
    Storage.getItem (TTLStore.dollarSet name st now k (some it) e)
      (TTLStore.makeDataKey name k) = some (jsRepr e ++ ':' :: it) := by
  rw [dollarSet_write_eq hf]
  by_cases hc : e.isNaN || e.gt (TTLStore.getNext name st)
  · rw [if_pos hc, Storage.getItem_setItem_self]
  · rw [if_neg hc,
      Storage.getItem_setItem_ne _ _ _ _ (makeKey_ne_makeDataKey name _ k).symm,
      Storage.getItem_setItem_self]

theorem getItem_dollarSet_ne {name : Str} {st : Storage} {now : ℤ} {k : Str}
    {item : Option Str} {e : JsNum} {k2 : Str} (hne : k2 ≠ k) :
    Storage.getItem (TTLStore.dollarSet name st now k item e)
      (TTLStore.makeDataKey name k2)
      = Storage.getItem st (TTLStore.makeDataKey name k2) := by
  have hdk : TTLStore.makeDataKey name k2 ≠ TTLStore.makeDataKey name k :=
    fun h => hne (makeDataKey_inj h)
  cases item with
  | none =>
    rw [dollarSet_none_eq_removeItem]
    exact Storage.getItem_removeItem_ne _ _ _ hdk
  | some it =>
    by_cases hf : checkFresh e now
    · rw [dollarSet_write_eq hf]
      by_cases hc : e.isNaN || e.gt (TTLStore.getNext name st)
      · rw [if_pos hc]
        exact Storage.getItem_setItem_ne _ _ _ _ hdk
      · rw [if_neg hc,
          Storage.getItem_setItem_ne _ _ _ _ (makeKey_ne_makeDataKey name _ k2).symm,
          Storage.getItem_setItem_ne _ _ _ _ hdk]
    · rw [dollarSet_stale_eq (by simpa using hf)]
      exact Storage.getItem_removeItem_ne _ _ _ hdk

theorem getNext_dollarSet_none (name : Str) (st : Storage) (now : ℤ) (k : Str)
    (e : JsNum) :
    TTLStore.getNext name (TTLStore.dollarSet name st now k none e)
      = TTLStore.getNext name st := by
  rw [dollarSet_none_eq_removeItem]
  exact getNext_removeItem_data name st k

theorem getNext_dollarSet_stale {name : Str} {st : Storage} {now : ℤ} {k it : Str}
    {e : JsNum} (hf : checkFresh e now = false) :
    TTLStore.getNext name (TTLStore.dollarSet name st now k (some it) e)
      = TTLStore.getNext name st := by
  rw [dollarSet_stale_eq hf]
  exact getNext_removeItem_data name st k

theorem getNext_dollarSet_write_int {name : Str} {st : Storage} {now : ℤ}
    {k it : Str} {v : ℤ} (hf : checkFresh (JsNum.int v) now = true) (hnz : v ≠ 0) :
    TTLStore.getNext name (TTLStore.dollarSet name st now k (some it) (JsNum.int v))
      = if (JsNum.int v).gt (TTLStore.getNext name st) then TTLStore.getNext name st
        else JsNum.int v := by
  rw [dollarSet_write_eq hf]
  by_cases hc : (JsNum.int v).gt (TTLStore.getNext name st)
  · rw [if_pos (by simp [isNaN_int, hc]), getNext_setItem_data, if_pos hc]
  · rw [if_neg (by simp [isNaN_int, hc]), if_neg hc]
    have : jsRepr (JsNum.int v) = intRepr v := rfl
    rw [this, getNext_setItem_sentinel, if_neg hnz]

theorem getNext_dollarSet_write_inf {name : Str} {st : Storage} {now : ℤ}
    {k it : Str} :
    TTLStore.getNext name (TTLStore.dollarSet name st now k (some it) JsNum.inf)
      = if JsNum.inf.gt (TTLStore.getNext name st) then TTLStore.getNext name st
        else JsNum.inf := by
  rw [dollarSet_write_eq (checkFresh_inf now)]
  by_cases hc : JsNum.inf.gt (TTLStore.getNext name st)
  · rw [if_pos (by simp [isNaN_inf, hc]), getNext_setItem_data, if_pos hc]
  · rw [if_neg (by simp [isNaN_inf, hc]), getNext_setItem_sentinel_inf, if_neg hc]

theorem dollarGet_of_record_int {name : Str} {st : Storage} {now : ℤ} {key it : Str}
    {v : ℤ}
    (h : Storage.getItem st (TTLStore.makeDataKey name key)
       = some (intRepr v ++ ':' :: it)) :
    TTLStore.dollarGet name st now key =
      if checkFresh (JsNum.int v) now then (JsNum.int v, some it)
      else (JsNum.int 1, none) := by
  have hthis := @dollarGet_of_record name st now key _ _ (colon_not_mem_intRepr v)
    (intRepr_ne_nil v) h
  rw [jsNumber_intRepr] at hthis
  exact hthis

theorem dollarGet_of_record_inf {name : Str} {st : Storage} {now : ℤ} {key it : Str}
    (h : Storage.getItem st (TTLStore.makeDataKey name key)
       = some (jsRepr JsNum.inf ++ ':' :: it)) :
    TTLStore.dollarGet name st now key = (JsNum.int 1, none) := by
  have ha : ':' ∉ jsRepr JsNum.inf := by decide
  have hne : jsRepr JsNum.inf ≠ [] := by decide
  have hthis := @dollarGet_of_record name st now key _ _ ha hne h
  rw [show jsNumber (jsRepr JsNum.inf) = JsNum.nan from by decide, checkFresh_nan]
    at hthis
  rw [hthis, if_neg (by simp)]

theorem dollarGet_dollarSet_write_int {name : Str} {st : Storage} {now now2 : ℤ}
    {k it : Str} {v : ℤ} (hf : checkFresh (JsNum.int v) now = true) :
    TTLStore.dollarGet name (TTLStore.dollarSet name st now k (some it) (JsNum.int v))
        now2 k
      = if checkFresh (JsNum.int v) now2 then (JsNum.int v, some it)
        else (JsNum.int 1, none) := by
  have hrec := @getItem_dollarSet_write_self name st now k it (JsNum.int v) hf
  rw [show jsRepr (JsNum.int v) = intRepr v from rfl] at hrec
  exact dollarGet_of_record_int hrec

theorem dollarGet_dollarSet_write_inf {name : Str} {st : Storage} {now now2 : ℤ}
    {k it : Str} :
    TTLStore.dollarGet name (TTLStore.dollarSet name st now k (some it) JsNum.inf)
        now2 k = (JsNum.int 1, none) := by
  have hrec := @getItem_dollarSet_write_self name st now k it JsNum.inf
    (checkFresh_inf now)
  exact dollarGet_of_record_inf hrec

theorem dollarGet_dollarSet_none {name : Str} {st : Storage} {now now2 : ℤ}
    {k : Str} {e : JsNum} :
    TTLStore.dollarGet name (TTLStore.dollarSet name st now k none e) now2 k
      = (JsNum.int 1, none) := by
  rw [dollarSet_none_eq_removeItem]
  exact dollarGet_of_getItem_none (Storage.getItem_removeItem_self st _)

theorem dollarGet_dollarSet_stale {name : Str} {st : Storage} {now now2 : ℤ}
    {k it : Str} {e : JsNum} (hf : checkFresh e now = false) :
    TTLStore.dollarGet name (TTLStore.dollarSet name st now k (some it) e) now2 k
      = (JsNum.int 1, none) := by
  rw [dollarSet_stale_eq hf]
  exact dollarGet_of_getItem_none (Storage.getItem_removeItem_self st _)

theorem dollarGet_dollarSet_ne {name : Str} {st : Storage} {now now2 : ℤ}
    {k : Str} {item : Option Str} {e : JsNum} {k2 : Str} (hne : k2 ≠ k) :
    TTLStore.dollarGet name (TTLStore.dollarSet name st now k item e) now2 k2
      = TTLStore.dollarGet name st now2 k2 :=
  dollarGet_congr (getItem_dollarSet_ne hne)

/-! ### Preservation of the tracker invariant -/

theorem TrackerInv_removeItem {name : Str} {st : Storage} {now : ℤ}
    (hInv : TrackerInv name st now) (k : Str) :
    TrackerInv name (Storage.removeItem st (TTLStore.makeDataKey name k)) now := by
  have hg := getNext_removeItem_data name st k
  constructor
  · intro hinf k2
    rw [hg] at hinf
    by_cases hk : k2 = k
    · subst hk
      rw [dollarGet_of_getItem_none (Storage.getItem_removeItem_self st _)]
    · rw [dollarGet_congr (Storage.getItem_removeItem_ne st _ _
        (fun h => hk (makeDataKey_inj h)))]
      exact hInv.1 hinf k2
  · intro s hs k2 e it hget
    rw [hg] at hs
    by_cases hk : k2 = k
    · subst hk
      rw [dollarGet_of_getItem_none (Storage.getItem_removeItem_self st _)] at hget
      exact absurd hget.symm (by simp)
    · rw [dollarGet_congr (Storage.getItem_removeItem_ne st _ _
        (fun h => hk (makeDataKey_inj h)))] at hget
      exact hInv.2 s hs k2 e it hget

theorem TrackerInv_dollarSet {name : Str} {st : Storage} {now : ℤ} (h0 : 0 ≤ now)
    (hInv : TrackerInv name st now) (k : Str) (item : Option Str) (e : JsNum) :
    TrackerInv name (TTLStore.dollarSet name st now k item e) now := by
  cases item with
  | none =>
    rw [dollarSet_none_eq_removeItem]
    exact TrackerInv_removeItem hInv k
  | some it =>
    cases hf : checkFresh e now with
    | false =>
      rw [dollarSet_stale_eq hf]
      exact TrackerInv_removeItem hInv k
    | true =>
      cases e with
      | nan => exact absurd hf (by rw [checkFresh_nan]; simp)
      | inf =>
        have hgn := @getNext_dollarSet_write_inf name st now k it
        by_cases hc : JsNum.inf.gt (TTLStore.getNext name st)
        · rw [if_pos hc] at hgn
          constructor
          · intro hinf k2
            rw [hgn] at hinf
            by_cases hk : k2 = k
            · subst hk
              rw [dollarGet_dollarSet_write_inf]
            · rw [dollarGet_dollarSet_ne hk]
              exact hInv.1 hinf k2
          · intro s hs k2 e2 it2 hget
            rw [hgn] at hs
            by_cases hk : k2 = k
            · subst hk
              rw [dollarGet_dollarSet_write_inf] at hget
              exact absurd hget.symm (by simp)
            · rw [dollarGet_dollarSet_ne hk] at hget
              exact hInv.2 s hs k2 e2 it2 hget
        · rw [if_neg hc] at hgn
          constructor
          · intro _ k2
            by_cases hk : k2 = k
            · subst hk
              rw [dollarGet_dollarSet_write_inf]
            · rw [dollarGet_dollarSet_ne hk]
              cases hg0 : TTLStore.getNext name st with
              | nan => exact absurd hg0 (getNext_ne_nan name st)
              | inf => exact hInv.1 hg0 k2
              | int s0 => rw [hg0, inf_gt_int] at hc; exact absurd rfl hc
          · intro s hs
            rw [hgn] at hs
            exact absurd hs.symm (by simp)
      | int v =>
        have hnz : v ≠ 0 := checkFresh_int_ne_zero h0 hf
        have hgn := @getNext_dollarSet_write_int name st now k it v hf hnz
        by_cases hc : (JsNum.int v).gt (TTLStore.getNext name st)
        · rw [if_pos hc] at hgn
          cases hg0 : TTLStore.getNext name st with
          | nan => exact absurd hg0 (getNext_ne_nan name st)
          | inf =>
            rw [hg0, int_gt_inf] at hc
            exact absurd hc (by simp)
          | int s0 =>
            have hvs : s0 < v := by
              rw [hg0, int_gt_int] at hc
              exact of_decide_eq_true hc
            constructor
            · intro hinf
              rw [hgn, hg0] at hinf
              exact absurd hinf (by simp)
            · intro s hs k2 e2 it2 hget
              rw [hgn, hg0] at hs
              injection hs with hs
              subst hs
              by_cases hk : k2 = k
              · subst hk
                rw [dollarGet_dollarSet_write_int hf, if_pos hf] at hget
                injection hget with h1 _
                injection h1 with h1
                omega
              · rw [dollarGet_dollarSet_ne hk] at hget
                exact hInv.2 s0 hg0 k2 e2 it2 hget
        · rw [if_neg hc] at hgn
          constructor
          · intro hinf
            rw [hgn] at hinf
            exact absurd hinf (by simp)
          · intro s hs k2 e2 it2 hget
            rw [hgn] at hs
            injection hs with hs
            subst hs
            by_cases hk : k2 = k
            · subst hk
              rw [dollarGet_dollarSet_write_int hf, if_pos hf] at hget
              injection hget with h1 _
              injection h1 with h1
              omega
            · rw [dollarGet_dollarSet_ne hk] at hget
              cases hg0 : TTLStore.getNext name st with
              | nan => exact absurd hg0 (getNext_ne_nan name st)
              | inf => exact absurd (hInv.1 hg0 k2) (by rw [hget]; simp)
              | int s0 =>
                have hvs : v ≤ s0 := by
                  rw [hg0, int_gt_int] at hc
                  simpa using hc
                have := hInv.2 s0 hg0 k2 e2 it2 hget
                omega

theorem TrackerInv_cleanFold {name : Str} {now : ℤ} (h0 : 0 ≤ now)
    (L : List (Str × JsNum)) :
    ∀ st : Storage, TrackerInv name st now →
      TrackerInv name (L.foldl (fun acc kv =>
        if checkFresh kv.2 now then acc
        else TTLStore.dollarSet name acc now kv.1 none (JsNum.int (-1))) st) now := by
  induction L with
  | nil => exact fun st h => h
  | cons kv L ih =>
    intro st h
    rw [List.foldl_cons]
    by_cases hf : checkFresh kv.2 now
    · rw [if_pos hf]
      exact ih st h
    · rw [if_neg hf]
      exact ih _ (TrackerInv_dollarSet h0 h kv.1 none (JsNum.int (-1)))

theorem TrackerInv_clean {name : Str} {st : Storage} {now : ℤ} (h0 : 0 ≤ now)
    (hInv : TrackerInv name st now) :
    TrackerInv name (TTLStore.clean name st now) now := by
  unfold TTLStore.clean
  by_cases hfp : (TTLStore.getNext name st).gt (JsNum.int now)
  · rw [if_pos hfp]
    exact hInv
  · rw [if_neg hfp]
    exact TrackerInv_cleanFold h0 _ st hInv

theorem TrackerInv_applyOp {name : Str} {st : Storage} {now : ℤ} (h0 : 0 ≤ now)
    (hInv : TrackerInv name st now) (op : Op) :
    TrackerInv name (applyOp name st now op) now := by
  cases op with
  | opSetItem k v e =>
    unfold applyOp TTLStore.setItem
    dsimp only
    by_cases hc : (JsNum.int 0).gt e
    · rw [if_pos hc]
      exact TrackerInv_dollarSet h0 hInv k _ _
    · rw [if_neg hc]
      exact TrackerInv_dollarSet h0 hInv k _ _
  | opSetItemUntil k v e =>
    show TrackerInv name
      (TTLStore.dollarSet name st now k (some (jsonStringify v)) e) now
    exact TrackerInv_dollarSet h0 hInv k _ _
  | opUpdateItem k v =>
    show TrackerInv name
      (TTLStore.dollarSet name st now k (some (jsonStringify v))
        (TTLStore.dollarGet name st now k).1) now
    exact TrackerInv_dollarSet h0 hInv k _ _
  | opSetExpire k e =>
    unfold applyOp TTLStore.setExpire
    dsimp only
    by_cases hc : (JsNum.int 0).gt e
    · rw [if_pos hc]
      exact TrackerInv_dollarSet h0 hInv k _ _
    · rw [if_neg hc]
      exact TrackerInv_dollarSet h0 hInv k _ _
  | opSetExpireAt k e =>
    show TrackerInv name
      (TTLStore.dollarSet name st now k (TTLStore.dollarGet name st now k).2 e) now
    exact TrackerInv_dollarSet h0 hInv k _ _
  | opRemoveItem k =>
    show TrackerInv name
      (TTLStore.dollarSet name st now k none (JsNum.int (-1))) now
    exact TrackerInv_dollarSet h0 hInv k _ _
  | opGetItem k =>
    show TrackerInv name (TTLStore.clean name st now) now
    exact TrackerInv_clean h0 hInv
  | opClean =>
    show TrackerInv name (TTLStore.clean name st now) now
    exact TrackerInv_clean h0 hInv

theorem TrackerInv_surface {name : Str} {st : Storage} {now : ℤ}
    (hInv : TrackerInv name st now) {sv : Str} {s : ℤ} {k : Str} {e : ℤ} {it : Str}
    (hsv : Storage.getItem st (TTLStore.makeKey name TTLStore.nextChars) = some sv)
    (hs : jsNumber sv = JsNum.int s)
    (hget : TTLStore.dollarGet name st now k = (JsNum.int e, some it)) : s ≤ e := by
  have hnum : jsNumberOpt (some sv) = JsNum.int s := by
    rw [show jsNumberOpt (some sv) = jsNumber sv from rfl, hs]
  by_cases hz : s = 0
  · have hg : TTLStore.getNext name st = JsNum.inf := by
      unfold TTLStore.getNext
      rw [hsv, hnum, if_pos (by simp [JsNum.falsy, hz])]
    have hnone := hInv.1 hg k
    rw [hget] at hnone
    exact absurd hnone (by simp)
  · have hg : TTLStore.getNext name st = JsNum.int s := by
      unfold TTLStore.getNext
      rw [hsv, hnum, if_neg (by simp [JsNum.falsy, hz])]
    exact hInv.2 s hg k e it hget

/-! ### Remaining structural helpers -/

theorem setItemUntil_eq (name : Str) (st : Storage) (now : ℤ) (k : Str) (v : Json)
    (e : JsNum) :
    TTLStore.setItemUntil name st now k v e
      = TTLStore.dollarSet name st now k (some (jsonStringify v)) e := rfl

theorem removeItem_eq (name : Str) (st : Storage) (now : ℤ) (k : Str) :
    TTLStore.removeItem name st now k
      = Storage.removeItem st (TTLStore.makeDataKey name k) := rfl

theorem dollarGet_none_fst {name : Str} {st : Storage} {now : ℤ} {key : Str}
    (h : (TTLStore.dollarGet name st now key).2 = none) :
    TTLStore.dollarGet name st now key = (JsNum.int 1, none) := by
  cases hrec : Storage.getItem st (TTLStore.makeDataKey name key) with
  | none => exact dollarGet_of_getItem_none hrec
  | some value =>
    unfold TTLStore.dollarGet at h ⊢
    rw [hrec] at h ⊢
    dsimp only at h ⊢
    by_cases h1 : value = []
    · rw [if_pos h1]
    · rw [if_neg h1] at h ⊢
      by_cases h2 : jsIndexOf ':' value < 1
      · rw [if_pos h2]
      · rw [if_neg h2] at h ⊢
        by_cases h3 :
            checkFresh (jsNumber (value.take (jsIndexOf ':' value).toNat)) now
        · rw [if_neg (by simp [h3])] at h
          exact absurd h (by simp)
        · rw [if_pos (by simp [h3])]

theorem checkFresh_int_false_iff {v now : ℤ} (hv : v ≠ -1) (hle : v ≤ now) :
    checkFresh (JsNum.int v) now = false := by
  rw [Bool.eq_false_iff]
  intro hx
  rcases checkFresh_int_iff.mp hx with hx | hx <;> omega

/-! ### Claim theorems -/

/-- C9: for every key `k`, value `v`, and `expireAtMs` that is not `-1` and not
strictly greater than the current time (including `NaN` and any past
timestamp), `setItemUntil(k, v, expireAtMs)` writes no record and deletes any
existing data record for `k` — it equals `removeItem(k)` on the store; the same
holds for `setItem(k, v, 0)` (at a nonnegative current time). -/
theorem claim_C9 (name : Str) (st : Storage) (now : ℤ) (k : Str) (v : Json)
    (e : JsNum) (h0 : 0 ≤ now)
    (he : e = JsNum.nan ∨ ∃ w : ℤ, e = JsNum.int w ∧ w ≠ -1 ∧ w ≤ now) :
    TTLStore.setItemUntil name st now k v e
        = Storage.removeItem st (TTLStore.makeDataKey name k) ∧
      TTLStore.setItemUntil name st now k v e = TTLStore.removeItem name st now k ∧
      TTLStore.setItem name st now k v (JsNum.int 0)
        = Storage.removeItem st (TTLStore.makeDataKey name k) := by
  have hstale : checkFresh e now = false := by
    rcases he with rfl | ⟨w, rfl, hw1, hw2⟩
    · exact checkFresh_nan now
    · exact checkFresh_int_false_iff hw1 hw2
  have h1 : TTLStore.setItemUntil name st now k v e
      = Storage.removeItem st (TTLStore.makeDataKey name k) := by
    rw [setItemUntil_eq]
    exact dollarSet_stale_eq hstale
  refine ⟨h1, ?_, ?_⟩
  · rw [h1, removeItem_eq]
  · unfold TTLStore.setItem
    rw [if_neg (by rw [int_gt_int]; simp)]
    rw [show jsAddMul1000 now (JsNum.int 0) = JsNum.int now from by
      simp [jsAddMul1000]]
    rw [setItemUntil_eq]
    exact dollarSet_stale_eq (checkFresh_int_false_iff (by omega) (le_refl now))

/-- C9 witness. -/
theorem claim_C9_witness :
    ((0 : ℤ) ≤ 0 ∧
      (JsNum.nan = JsNum.nan ∨
        ∃ w : ℤ, JsNum.nan = JsNum.int w ∧ w ≠ -1 ∧ w ≤ 0)) ∧
    (TTLStore.setItemUntil ['m'] [] 0 ['a'] Json.null JsNum.nan
        = Storage.removeItem [] (TTLStore.makeDataKey ['m'] ['a']) ∧
      TTLStore.setItemUntil ['m'] [] 0 ['a'] Json.null JsNum.nan
        = TTLStore.removeItem ['m'] [] 0 ['a'] ∧
      TTLStore.setItem ['m'] [] 0 ['a'] Json.null (JsNum.int 0)
        = Storage.removeItem [] (TTLStore.makeDataKey ['m'] ['a'])) :=
  ⟨⟨by decide, Or.inl rfl⟩,
    claim_C9 ['m'] [] 0 ['a'] Json.null JsNum.nan (by decide) (Or.inl rfl)⟩

/-- C7: `removeItem(k)` physically deletes the raw data record immediately: an
immediately following `getItem(k)` returns `null`, and the record count drops
by exactly one when the data record existed and is unchanged otherwise. -/
theorem claim_C7 (name : Str) (st : Storage) (now : ℤ) (k : Str)
    (hWF : Storage.WF st) :
    Storage.getItem (TTLStore.removeItem name st now k)
        (TTLStore.makeDataKey name k) = none ∧
      (TTLStore.getItem name (TTLStore.removeItem name st now k) now k).1 = none ∧
      (TTLStore.removeItem name st now k).length =
        (if (Storage.getItem st (TTLStore.makeDataKey name k)).isSome then
          st.length - 1 else st.length) := by
  refine ⟨?_, ?_, ?_⟩
  · rw [removeItem_eq]
    exact Storage.getItem_removeItem_self st _
  · unfold TTLStore.getItem
    dsimp only
    rw [dollarGet_of_getItem_none (clean_getItem_none_mono
      (by rw [removeItem_eq]; exact Storage.getItem_removeItem_self st _))]
    rfl
  · rw [removeItem_eq, Storage.length_removeItem st _ hWF]

/-- C7 witness. -/
theorem claim_C7_witness :
    Storage.WF [(['m', '.', 'a'], ['x'])] ∧
    (Storage.getItem (TTLStore.removeItem ['m'] [(['m', '.', 'a'], ['x'])] 0 ['a'])
        (TTLStore.makeDataKey ['m'] ['a']) = none ∧
      (TTLStore.getItem ['m']
        (TTLStore.removeItem ['m'] [(['m', '.', 'a'], ['x'])] 0 ['a']) 0 ['a']).1
        = none ∧
      (TTLStore.removeItem ['m'] [(['m', '.', 'a'], ['x'])] 0 ['a']).length =
        (if (Storage.getItem [(['m', '.', 'a'], ['x'])]
            (TTLStore.makeDataKey ['m'] ['a'])).isSome then
          ([(['m', '.', 'a'], ['x'])] : Storage).length - 1
        else ([(['m', '.', 'a'], ['x'])] : Storage).length)) :=
  ⟨by unfold Storage.WF; decide,
    claim_C7 ['m'] [(['m', '.', 'a'], ['x'])] 0 ['a'] (by unfold Storage.WF; decide)⟩

/-- C6 counterexample: a fresh record whose payload fails JSON decoding (so
`getItem` already reports `null` — a "corrupted record" in C4's sense) is NOT
treated as absent by `updateItem`: the update inherits the record's fresh
`expireAt`, so afterwards a retrievable data record for `k` exists and
`getItem(k)` returns the new value, not `null`. -/
theorem claim_C6_counterexample :
    (TTLStore.dollarGet ['m'] [(['m', '.', 'a'], ['9', ':', 'x'])] 5 ['a']).2
        = some ['x'] ∧
      jsonParse ['x'] = none ∧
      (TTLStore.getItem ['m'] [(['m', '.', 'a'], ['9', ':', 'x'])] 5 ['a']).1
        = none ∧
      ¬((TTLStore.getItem ['m']
          (TTLStore.updateItem ['m'] [(['m', '.', 'a'], ['9', ':', 'x'])] 5 ['a']
            Json.null) 5 ['a']).1 = none) ∧
      ¬(Storage.getItem
          (TTLStore.updateItem ['m'] [(['m', '.', 'a'], ['9', ':', 'x'])] 5 ['a']
            Json.null) (TTLStore.makeDataKey ['m'] ['a']) = none) := by
  decide

/-- C6 (amended): for every key `k` whose record fails to decode at the `$get`
level (absent, empty, missing colon at index ≥ 1, non-numeric `expireAt`, or
expired `expireAt`) — not merely a fresh record with a JSON-corrupt payload —
and current time ≥ 1 ms, `updateItem(k, v)` behaves like setting the value with
immediate expiration: afterwards no data record for `k` exists and `getItem(k)`
returns `null`. -/
theorem claim_C6 (name : Str) (st : Storage) (now : ℤ) (k : Str) (v : Json)
    (h1 : 1 ≤ now) (habs : (TTLStore.dollarGet name st now k).2 = none) :
    Storage.getItem (TTLStore.updateItem name st now k v)
        (TTLStore.makeDataKey name k) = none ∧
      (TTLStore.getItem name (TTLStore.updateItem name st now k v) now k).1
        = none := by
  have hstale : checkFresh (JsNum.int 1) now = false :=
    checkFresh_int_false_iff (by omega) (by omega)
  have hfst : (TTLStore.dollarGet name st now k).1 = JsNum.int 1 := by
    rw [dollarGet_none_fst habs]
  have hupd : TTLStore.updateItem name st now k v
      = Storage.removeItem st (TTLStore.makeDataKey name k) := by
    unfold TTLStore.updateItem
    rw [hfst, setItemUntil_eq]
    exact dollarSet_stale_eq hstale
  have hgone : Storage.getItem (TTLStore.updateItem name st now k v)
      (TTLStore.makeDataKey name k) = none := by
    rw [hupd]
    exact Storage.getItem_removeItem_self st _
  refine ⟨hgone, ?_⟩
  unfold TTLStore.getItem
  dsimp only
  rw [dollarGet_of_getItem_none (clean_getItem_none_mono hgone)]
  rfl

/-- C6 witness. -/
theorem claim_C6_witness :
    ((1 : ℤ) ≤ 5 ∧ (TTLStore.dollarGet ['m'] [] 5 ['a']).2 = none) ∧
    (Storage.getItem (TTLStore.updateItem ['m'] [] 5 ['a'] Json.null)
        (TTLStore.makeDataKey ['m'] ['a']) = none ∧
      (TTLStore.getItem ['m'] (TTLStore.updateItem ['m'] [] 5 ['a'] Json.null)
        5 ['a']).1 = none) :=
  ⟨⟨by decide, by decide⟩, claim_C6 ['m'] [] 5 ['a'] Json.null (by decide) (by decide)⟩

/-- C2: `setItem(k, v)` with no TTL argument (the default `-1`, never expires)
followed by `getItem(k)` — at any later read time — returns a value
structurally equal to `v` after the JSON round-trip. -/
theorem claim_C2 (name : Str) (st : Storage) (now now2 : ℤ) (k : Str) (v : Json) :
    (TTLStore.getItem name (TTLStore.setItem name st now k v (JsNum.int (-1)))
      now2 k).1 = some v := by
  have hfr : ∀ t : ℤ, checkFresh (JsNum.int (-1)) t = true :=
    fun t => checkFresh_int_iff.mpr (Or.inl rfl)
  have hsi : TTLStore.setItem name st now k v (JsNum.int (-1))
      = TTLStore.dollarSet name st now k (some (jsonStringify v)) (JsNum.int (-1)) := by
    unfold TTLStore.setItem
    rw [if_pos (by rw [int_gt_int]; decide)]
    rfl
  rw [hsi]
  have hget1 := @dollarGet_dollarSet_write_int name st now now2 k (jsonStringify v)
    (-1) (hfr now)
  rw [if_pos (hfr now2)] at hget1
  have hfreshfst : checkFresh
      (TTLStore.dollarGet name (TTLStore.dollarSet name st now k
        (some (jsonStringify v)) (JsNum.int (-1))) now2 k).1 now2 = true := by
    rw [hget1]
    exact hfr now2
  unfold TTLStore.getItem
  dsimp only
  rw [dollarGet_congr (clean_getItem_of_fresh hfreshfst), hget1]
  show jsonParse (jsonStringify v) = some v
  exact jsonParse_stringify v

/-- C5: if `k` currently holds a fresh entry with expiration `T`, then
`updateItem(k, v2)` replaces the stored payload with the encoding of `v2`
while the entry's `expireAt` stays exactly `T`. -/
theorem claim_C5 (name : Str) (st : Storage) (now : ℤ) (k : Str) (v2 : Json)
    (T : ℤ) (it0 : Str)
    (hcur : TTLStore.dollarGet name st now k = (JsNum.int T, some it0)) :
    Storage.getItem (TTLStore.updateItem name st now k v2)
        (TTLStore.makeDataKey name k)
      = some (intRepr T ++ ':' :: jsonStringify v2) ∧
    TTLStore.dollarGet name (TTLStore.updateItem name st now k v2) now k
      = (JsNum.int T, some (jsonStringify v2)) := by
  have hfr : checkFresh (JsNum.int T) now = true := dollarGet_fresh_of_some hcur
  have hupd : TTLStore.updateItem name st now k v2
      = TTLStore.dollarSet name st now k (some (jsonStringify v2)) (JsNum.int T) := by
    unfold TTLStore.updateItem
    rw [hcur]
    rfl
  constructor
  · rw [hupd]
    have hrec := @getItem_dollarSet_write_self name st now k (jsonStringify v2)
      (JsNum.int T) hfr
    rw [show jsRepr (JsNum.int T) = intRepr T from rfl] at hrec
    exact hrec
  · rw [hupd,
      @dollarGet_dollarSet_write_int name st now now k (jsonStringify v2) T hfr,
      if_pos hfr]

/-- C5 witness. -/
theorem claim_C5_witness :
    TTLStore.dollarGet ['m'] [(['m', '.', 'a'], ['9', ':', '0'])] 5 ['a']
        = (JsNum.int 9, some ['0']) ∧
    (Storage.getItem
        (TTLStore.updateItem ['m'] [(['m', '.', 'a'], ['9', ':', '0'])] 5 ['a']
          Json.null) (TTLStore.makeDataKey ['m'] ['a'])
      = some (intRepr 9 ++ ':' :: jsonStringify Json.null) ∧
    TTLStore.dollarGet ['m']
        (TTLStore.updateItem ['m'] [(['m', '.', 'a'], ['9', ':', '0'])] 5 ['a']
          Json.null) 5 ['a']
      = (JsNum.int 9, some (jsonStringify Json.null))) :=
  ⟨by decide,
    claim_C5 ['m'] [(['m', '.', 'a'], ['9', ':', '0'])] 5 ['a'] Json.null 9 ['0']
      (by decide)⟩

theorem tryJson_dollarGet_none_of_cases {name : Str} {st : Storage} {now : ℤ}
    {k : Str}
    (h : Storage.getItem st (TTLStore.makeDataKey name k) = none
      ∨ (∃ raw, Storage.getItem st (TTLStore.makeDataKey name k) = some raw
          ∧ jsIndexOf ':' raw < 1)
      ∨ (∃ raw, Storage.getItem st (TTLStore.makeDataKey name k) = some raw
          ∧ 1 ≤ jsIndexOf ':' raw
          ∧ jsNumber (raw.take (jsIndexOf ':' raw).toNat) = JsNum.nan)
      ∨ (∃ raw e, Storage.getItem st (TTLStore.makeDataKey name k) = some raw
          ∧ 1 ≤ jsIndexOf ':' raw
          ∧ jsNumber (raw.take (jsIndexOf ':' raw).toNat) = JsNum.int e
          ∧ checkFresh (JsNum.int e) now = false)
      ∨ (∃ raw, Storage.getItem st (TTLStore.makeDataKey name k) = some raw
          ∧ jsonParse (raw.drop ((jsIndexOf ':' raw).toNat + 1)) = none)) :
    tryJson (TTLStore.dollarGet name st now k).2 = none := by
  rcases h with h | ⟨raw, hrec, hidx⟩ | ⟨raw, hrec, hidx, hnan⟩
      | ⟨raw, e, hrec, hidx, hint, hstale⟩ | ⟨raw, hrec, hbad⟩
  · rw [dollarGet_of_getItem_none h]
    rfl
  · unfold TTLStore.dollarGet
    rw [hrec]
    dsimp only
    by_cases h0 : raw = []
    · rw [if_pos h0]
      rfl
    · rw [if_neg h0, if_pos hidx]
      rfl
  · unfold TTLStore.dollarGet
    rw [hrec]
    dsimp only
    by_cases h0 : raw = []
    · rw [if_pos h0]
      rfl
    · rw [if_neg h0, if_neg (by omega),
        if_pos (by rw [hnan, checkFresh_nan]; rfl)]
      rfl
  · unfold TTLStore.dollarGet
    rw [hrec]
    dsimp only
    by_cases h0 : raw = []
    · rw [if_pos h0]
      rfl
    · rw [if_neg h0, if_neg (by omega), if_pos (by rw [hint, hstale]; rfl)]
      rfl
  · unfold TTLStore.dollarGet
    rw [hrec]
    dsimp only
    by_cases h0 : raw = []
    · rw [if_pos h0]
      rfl
    · by_cases h1 : jsIndexOf ':' raw < 1
      · rw [if_neg h0, if_pos h1]
        rfl
      · by_cases h2 : checkFresh (jsNumber (raw.take (jsIndexOf ':' raw).toNat)) now
        · rw [if_neg h0, if_neg h1, if_neg (by simp [h2])]
          show jsonParse (raw.drop ((jsIndexOf ':' raw).toNat + 1)) = none
          exact hbad
        · rw [if_neg h0, if_neg h1, if_pos (by simp [h2])]
          rfl

theorem tryJson_dollarGet_clean_none {name : Str} {st : Storage} {now : ℤ}
    {k : Str} (h : tryJson (TTLStore.dollarGet name st now k).2 = none) :
    tryJson (TTLStore.dollarGet name (TTLStore.clean name st now) now k).2
      = none := by
  rcases getItem_clean_cases name st now (TTLStore.makeDataKey name k) with hc | hc
  · rw [dollarGet_congr hc]
    exact h
  · rw [dollarGet_of_getItem_none hc]
    rfl

/-- C4: for every key `k` and every store content, `getItem(k)` (a total
function in this model, so it cannot raise) returns `null` in each of these
observably indistinguishable cases: no raw record for `k`; the record's
`expireAt` has passed (even before physical cleanup); or the record is
corrupted (missing colon separator at index ≥ 1 — including an empty record —
non-numeric `expireAt`, or a payload that fails JSON decoding). -/
theorem claim_C4 (name : Str) (st : Storage) (now : ℤ) (k : Str)
    (h : Storage.getItem st (TTLStore.makeDataKey name k) = none
      ∨ (∃ raw, Storage.getItem st (TTLStore.makeDataKey name k) = some raw
          ∧ jsIndexOf ':' raw < 1)
      ∨ (∃ raw, Storage.getItem st (TTLStore.makeDataKey name k) = some raw
          ∧ 1 ≤ jsIndexOf ':' raw
          ∧ jsNumber (raw.take (jsIndexOf ':' raw).toNat) = JsNum.nan)
      ∨ (∃ raw e, Storage.getItem st (TTLStore.makeDataKey name k) = some raw
          ∧ 1 ≤ jsIndexOf ':' raw
          ∧ jsNumber (raw.take (jsIndexOf ':' raw).toNat) = JsNum.int e
          ∧ checkFresh (JsNum.int e) now = false)
      ∨ (∃ raw, Storage.getItem st (TTLStore.makeDataKey name k) = some raw
          ∧ jsonParse (raw.drop ((jsIndexOf ':' raw).toNat + 1)) = none)) :
    (TTLStore.getItem name st now k).1 = none := by
  unfold TTLStore.getItem
  dsimp only
  exact tryJson_dollarGet_clean_none (tryJson_dollarGet_none_of_cases h)

/-- C4 witness (the absent-record case at a concrete store). -/
theorem claim_C4_witness :
    (Storage.getItem ([] : Storage) (TTLStore.makeDataKey ['m'] ['a']) = none
      ∨ (∃ raw, Storage.getItem ([] : Storage)
            (TTLStore.makeDataKey ['m'] ['a']) = some raw
          ∧ jsIndexOf ':' raw < 1)
      ∨ (∃ raw, Storage.getItem ([] : Storage)
            (TTLStore.makeDataKey ['m'] ['a']) = some raw
          ∧ 1 ≤ jsIndexOf ':' raw
          ∧ jsNumber (raw.take (jsIndexOf ':' raw).toNat) = JsNum.nan)
      ∨ (∃ raw e, Storage.getItem ([] : Storage)
            (TTLStore.makeDataKey ['m'] ['a']) = some raw
          ∧ 1 ≤ jsIndexOf ':' raw
          ∧ jsNumber (raw.take (jsIndexOf ':' raw).toNat) = JsNum.int e
          ∧ checkFresh (JsNum.int e) 0 = false)
      ∨ (∃ raw, Storage.getItem ([] : Storage)
            (TTLStore.makeDataKey ['m'] ['a']) = some raw
          ∧ jsonParse (raw.drop ((jsIndexOf ':' raw).toNat + 1)) = none)) ∧
    (TTLStore.getItem ['m'] [] 0 ['a']).1 = none :=
  ⟨Or.inl rfl, claim_C4 ['m'] [] 0 ['a'] (Or.inl rfl)⟩

/-- C1: for every key `k`, value `v` and `ttl > 0` (seconds), at a nonnegative
current time: immediately after `setItem(k, v, ttl)`, `getItem(k)` returns `v`;
and at any time `now2 ≥ now + ttl * 1000` (i.e. `ttl` seconds or more later),
`getItem(k)` returns `null` and the underlying data record for `k` is removed
by the `clean()` that the next `getItem` or `clean` call triggers. -/
theorem claim_C1 (name : Str) (st : Storage) (k : Str) (v : Json)
    (ttl now now2 : ℤ) (httl : 0 < ttl) (h0 : 0 ≤ now)
    (h2 : now + ttl * 1000 ≤ now2) :
    (TTLStore.getItem name (TTLStore.setItem name st now k v (JsNum.int ttl))
        now k).1 = some v ∧
      (TTLStore.getItem name (TTLStore.setItem name st now k v (JsNum.int ttl))
        now2 k).1 = none ∧
      Storage.getItem
        (TTLStore.clean name
          (TTLStore.setItem name st now k v (JsNum.int ttl)) now2)
        (TTLStore.makeDataKey name k) = none ∧
      Storage.getItem
        ((TTLStore.getItem name (TTLStore.setItem name st now k v (JsNum.int ttl))
          now2 k).2) (TTLStore.makeDataKey name k) = none := by
  have hfr : checkFresh (JsNum.int (now + ttl * 1000)) now = true :=
    checkFresh_int_iff.mpr (Or.inr (by omega))
  have hstale2 : checkFresh (JsNum.int (now + ttl * 1000)) now2 = false :=
    checkFresh_int_false_iff (by omega) (by omega)
  have hsi : TTLStore.setItem name st now k v (JsNum.int ttl)
      = TTLStore.dollarSet name st now k (some (jsonStringify v))
          (JsNum.int (now + ttl * 1000)) := by
    unfold TTLStore.setItem
    rw [if_neg (by rw [int_gt_int]; simp only [decide_eq_true_eq]; omega)]
    rfl
  rw [hsi]
  have hget_now := @dollarGet_dollarSet_write_int name st now now k
    (jsonStringify v) (now + ttl * 1000) hfr
  rw [if_pos hfr] at hget_now
  have hget_now2 := @dollarGet_dollarSet_write_int name st now now2 k
    (jsonStringify v) (now + ttl * 1000) hfr
  rw [if_neg (by simp [hstale2])] at hget_now2
  have hnz : now + ttl * 1000 ≠ 0 := by omega
  have hgn := @getNext_dollarSet_write_int name st now k (jsonStringify v)
    (now + ttl * 1000) hfr hnz
  have hbound : ∃ s : ℤ,
      TTLStore.getNext name (TTLStore.dollarSet name st now k
        (some (jsonStringify v)) (JsNum.int (now + ttl * 1000))) = JsNum.int s
      ∧ s ≤ now + ttl * 1000 := by
    by_cases hc : (JsNum.int (now + ttl * 1000)).gt (TTLStore.getNext name st)
    · rw [if_pos hc] at hgn
      cases hg0 : TTLStore.getNext name st with
      | nan => exact absurd hg0 (getNext_ne_nan name st)
      | inf =>
        rw [hg0, int_gt_inf] at hc
        exact absurd hc (by simp)
      | int s0 =>
        refine ⟨s0, by rw [hgn, hg0], ?_⟩
        rw [hg0, int_gt_int] at hc
        have := of_decide_eq_true hc
        omega
    · rw [if_neg hc] at hgn
      exact ⟨now + ttl * 1000, hgn, le_refl _⟩
  rcases hbound with ⟨s, hgns, hsle⟩
  have hscan : (TTLStore.getNext name (TTLStore.dollarSet name st now k
      (some (jsonStringify v)) (JsNum.int (now + ttl * 1000)))).gt
        (JsNum.int now2) = false := by
    rw [hgns, int_gt_int]
    simp only [decide_eq_false_iff_not]
    omega
  have hrec := @getItem_dollarSet_write_self name st now k (jsonStringify v)
    (JsNum.int (now + ttl * 1000)) hfr
  have hstalefst : checkFresh
      (TTLStore.dollarGet name (TTLStore.dollarSet name st now k
        (some (jsonStringify v)) (JsNum.int (now + ttl * 1000))) now2 k).1 now2
      = false := by
    rw [hget_now2]
    exact checkFresh_int_false_iff (by omega) (by omega)
  have hremoved : Storage.getItem
      (TTLStore.clean name (TTLStore.dollarSet name st now k
        (some (jsonStringify v)) (JsNum.int (now + ttl * 1000))) now2)
      (TTLStore.makeDataKey name k) = none :=
    clean_getItem_none_of_stale hrec hstalefst hscan
  refine ⟨?_, ?_, hremoved, ?_⟩
  · unfold TTLStore.getItem
    dsimp only
    rw [dollarGet_congr (clean_getItem_of_fresh (by rw [hget_now]; exact hfr)),
      hget_now]
    show jsonParse (jsonStringify v) = some v
    exact jsonParse_stringify v
  · unfold TTLStore.getItem
    dsimp only
    rw [dollarGet_of_getItem_none hremoved]
    rfl
  · unfold TTLStore.getItem
    dsimp only
    exact hremoved

/-- C1 witness (the sample-test scenario: 10-second TTL, read at +9 s and
expiry checked at +11 s). -/
theorem claim_C1_witness :
    ((0 : ℤ) < 10 ∧ (0 : ℤ) ≤ 1000 ∧ (1000 : ℤ) + 10 * 1000 ≤ 12000) ∧
    ((TTLStore.getItem ['m']
        (TTLStore.setItem ['m'] [] 1000 ['a'] (Json.str ['v']) (JsNum.int 10))
        1000 ['a']).1 = some (Json.str ['v']) ∧
      (TTLStore.getItem ['m']
        (TTLStore.setItem ['m'] [] 1000 ['a'] (Json.str ['v']) (JsNum.int 10))
        12000 ['a']).1 = none ∧
      Storage.getItem
        (TTLStore.clean ['m']
          (TTLStore.setItem ['m'] [] 1000 ['a'] (Json.str ['v']) (JsNum.int 10))
          12000) (TTLStore.makeDataKey ['m'] ['a']) = none ∧
      Storage.getItem
        ((TTLStore.getItem ['m']
          (TTLStore.setItem ['m'] [] 1000 ['a'] (Json.str ['v']) (JsNum.int 10))
          12000 ['a']).2) (TTLStore.makeDataKey ['m'] ['a']) = none) :=
  ⟨⟨by decide, by decide, by decide⟩,
    claim_C1 ['m'] [] ['a'] (Json.str ['v']) 10 1000 12000 (by decide) (by decide)
      (by decide)⟩

/-- C8: `clean()` is idempotent — for every store state and fixed current
time, a second `clean()` with no intervening writes leaves the store exactly
as the first left it. -/
theorem claim_C8 (name : Str) (st : Storage) (now : ℤ) :
    TTLStore.clean name (TTLStore.clean name st now) now
      = TTLStore.clean name st now := by
  cases hfp : (TTLStore.getNext name st).gt (JsNum.int now) with
  | true =>
    rw [clean_eq_of_fastpath hfp, clean_eq_of_fastpath hfp]
  | false =>
    have hfp2 : (TTLStore.getNext name (TTLStore.clean name st now)).gt
        (JsNum.int now) = false := by
      rw [getNext_clean]
      exact hfp
    rw [clean_eq_filter_of_scan hfp2]
    apply List.filter_eq_self.mpr
    intro p hp
    unfold staleKeep
    rw [List.all_eq_true]
    intro kv hkv
    rcases mem_dollarList hkv with ⟨⟨q, hqmem, hqkey⟩, hkv2⟩
    have hq2 : q ∈ st ∧ staleKeep name now (TTLStore.dollarList name st now) q.1
        = true := by
      have hmem2 := hqmem
      rw [clean_eq_filter_of_scan hfp] at hmem2
      exact List.mem_filter.mp hmem2
    have hlook : ∃ raw0, Storage.getItem st (TTLStore.makeDataKey name kv.1)
        = some raw0 := by
      have hsome : (List.find?
          (fun p => decide (p.1 = TTLStore.makeDataKey name kv.1)) st).isSome := by
        rw [List.find?_isSome]
        exact ⟨q, hq2.1, by simp [hqkey]⟩
      rcases Option.isSome_iff_exists.mp hsome with ⟨w, hw⟩
      refine ⟨w.2, ?_⟩
      unfold Storage.getItem
      rw [hw]
      rfl
    rcases hlook with ⟨raw0, hraw0⟩
    have hmemL := dataKey_mem_dollarList now hraw0
    have hfresh1 : checkFresh (TTLStore.dollarGet name st now kv.1).1 now
        = true := by
      have hsk := hq2.2
      unfold staleKeep at hsk
      have hall := List.all_eq_true.mp hsk _ hmemL
      simp only [hqkey, Bool.or_eq_true, Bool.not_eq_true',
        decide_eq_false_iff_not] at hall
      rcases hall with hx | hx
      · exact hx
      · exact absurd trivial hx
    have hcl := clean_getItem_of_fresh hfresh1
    rw [hkv2, dollarGet_congr hcl]
    simp [hfresh1]

/-- C3: the next-expiry tracker invariant is preserved by every facade
operation at a nonnegative current time: starting from a state satisfying the
(inductive) invariant — which excludes only the transient states that precede
the first time the tracker is seeded — every operation yields a state that
satisfies it again; consequently, whenever the sentinel record is present with
a numeric value `s` and some fresh data record exists, `s` is at most the
decoded `expireAt` of every fresh data record of the namespace. -/
theorem claim_C3 (name : Str) (st : Storage) (now : ℤ) (op : Op)
    (h0 : 0 ≤ now) (hInv : TrackerInv name st now) :
    TrackerInv name (applyOp name st now op) now ∧
      (∀ sv s k e it,
        Storage.getItem (applyOp name st now op)
            (TTLStore.makeKey name TTLStore.nextChars) = some sv →
        jsNumber sv = JsNum.int s →
        TTLStore.dollarGet name (applyOp name st now op) now k
            = (JsNum.int e, some it) →
        s ≤ e) := by
  have hpres := TrackerInv_applyOp h0 hInv op
  exact ⟨hpres, fun sv s k e it hsv hs hget => TrackerInv_surface hpres hsv hs hget⟩

/-- C3 witness. -/
theorem claim_C3_witness :
    ((0 : ℤ) ≤ 0 ∧ TrackerInv ['m'] [] 0) ∧
    (TrackerInv ['m'] (applyOp ['m'] [] 0 Op.opClean) 0 ∧
      (∀ sv s k e it,
        Storage.getItem (applyOp ['m'] [] 0 Op.opClean)
            (TTLStore.makeKey ['m'] TTLStore.nextChars) = some sv →
        jsNumber sv = JsNum.int s →
        TTLStore.dollarGet ['m'] (applyOp ['m'] [] 0 Op.opClean) 0 k
            = (JsNum.int e, some it) →
        s ≤ e)) := by
  have hInv : TrackerInv ['m'] [] 0 := by
    constructor
    · intro _ k
      rfl
    · intro s hs
      rw [show TTLStore.getNext ['m'] [] = JsNum.inf from rfl] at hs
      exact absurd hs (by simp)
  exact ⟨⟨by decide, hInv⟩, claim_C3 ['m'] [] 0 Op.opClean (by decide) hInv⟩

theorem getNext_dollarSet_keep_neg_one {name : Str} {st : Storage} {now : ℤ}
    {k : Str} {item : Option Str} {e : JsNum} (h0 : 0 ≤ now)
    (hg : TTLStore.getNext name st = JsNum.int (-1)) :
    TTLStore.getNext name (TTLStore.dollarSet name st now k item e)
      = JsNum.int (-1) := by
  cases item with
  | none => rw [getNext_dollarSet_none, hg]
  | some it =>
    cases hf : checkFresh e now with
    | false => rw [getNext_dollarSet_stale hf, hg]
    | true =>
      cases e with
      | nan => exact absurd hf (by rw [checkFresh_nan]; simp)
      | inf =>
        rw [@getNext_dollarSet_write_inf name st now k it, hg, inf_gt_int,
          if_pos rfl]
      | int v =>
        have hnz : v ≠ 0 := checkFresh_int_ne_zero h0 hf
        rw [@getNext_dollarSet_write_int name st now k it v hf hnz, hg]
        rcases checkFresh_int_iff.mp hf with hv | hv
        · subst hv
          rw [int_gt_int, if_neg (by simp)]
        · rw [int_gt_int, if_pos (by simp only [decide_eq_true_eq]; omega)]

theorem getNext_applyOp_keep_neg_one {name : Str} {st : Storage} {now : ℤ}
    (h0 : 0 ≤ now) (hg : TTLStore.getNext name st = JsNum.int (-1)) (op : Op) :
    TTLStore.getNext name (applyOp name st now op) = JsNum.int (-1) := by
  cases op with
  | opSetItem k v e =>
    unfold applyOp TTLStore.setItem
    dsimp only
    by_cases hc : (JsNum.int 0).gt e
    · rw [if_pos hc]
      exact getNext_dollarSet_keep_neg_one h0 hg
    · rw [if_neg hc]
      exact getNext_dollarSet_keep_neg_one h0 hg
  | opSetItemUntil k v e =>
    show TTLStore.getNext name
      (TTLStore.dollarSet name st now k (some (jsonStringify v)) e) = _
    exact getNext_dollarSet_keep_neg_one h0 hg
  | opUpdateItem k v =>
    show TTLStore.getNext name
      (TTLStore.dollarSet name st now k (some (jsonStringify v))
        (TTLStore.dollarGet name st now k).1) = _
    exact getNext_dollarSet_keep_neg_one h0 hg
  | opSetExpire k e =>
    unfold applyOp TTLStore.setExpire
    dsimp only
    by_cases hc : (JsNum.int 0).gt e
    · rw [if_pos hc]
      exact getNext_dollarSet_keep_neg_one h0 hg
    · rw [if_neg hc]
      exact getNext_dollarSet_keep_neg_one h0 hg
  | opSetExpireAt k e =>
    show TTLStore.getNext name
      (TTLStore.dollarSet name st now k (TTLStore.dollarGet name st now k).2 e) = _
    exact getNext_dollarSet_keep_neg_one h0 hg
  | opRemoveItem k =>
    show TTLStore.getNext name
      (TTLStore.dollarSet name st now k none (JsNum.int (-1))) = _
    exact getNext_dollarSet_keep_neg_one h0 hg
  | opGetItem k =>
    show TTLStore.getNext name (TTLStore.clean name st now) = _
    rw [getNext_clean, hg]
  | opClean =>
    show TTLStore.getNext name (TTLStore.clean name st now) = _
    rw [getNext_clean, hg]

/-- C10 counterexample: with a pre-existing sentinel record parsing to a
number below `-1` (here `"-5"`), a never-expiring write does NOT leave the
sentinel at `"-1"` — the `expireAt > getNext()` test skips the sentinel
update, so the claim's first conjunct fails as stated. -/
theorem claim_C10_counterexample :
    Storage.getItem
        (TTLStore.setItemUntil ['m'] [(['m', ':', 'n', 'e', 'x', 't'], ['-', '5'])]
          0 ['a'] Json.null (JsNum.int (-1)))
        (TTLStore.makeKey ['m'] TTLStore.nextChars) = some ['-', '5'] ∧
      ¬(Storage.getItem
        (TTLStore.setItemUntil ['m'] [(['m', ':', 'n', 'e', 'x', 't'], ['-', '5'])]
          0 ['a'] Json.null (JsNum.int (-1)))
        (TTLStore.makeKey ['m'] TTLStore.nextChars) = some ['-', '1']) := by
  decide

/-- C10 (amended): provided the sentinel does not already parse to a number
below `-1` (true of every state the facade itself produces at nonnegative
times), after a successful never-expiring write (`setItemUntil` with
`expireAt = -1`, which is also `setItem` with no TTL) the sentinel record
holds the string `"-1"` and `getNext()` returns `-1`; from then on no facade
operation at a nonnegative current time ever raises the sentinel away from
`-1`, and every subsequent `clean()` at a nonnegative time fails the
`next > now` fast-path test and performs the full enumeration scan. -/
theorem claim_C10 (name : Str) (st st2 : Storage) (now now2 : ℤ) (k : Str)
    (v : Json) (op : Op)
    (hs : ∀ s : ℤ, TTLStore.getNext name st = JsNum.int s → -1 ≤ s)
    (h02 : 0 ≤ now2)
    (hg2 : TTLStore.getNext name st2 = JsNum.int (-1)) :
    Storage.getItem (TTLStore.setItemUntil name st now k v (JsNum.int (-1)))
        (TTLStore.makeKey name TTLStore.nextChars) = some ['-', '1'] ∧
      TTLStore.getNext name
        (TTLStore.setItemUntil name st now k v (JsNum.int (-1)))
        = JsNum.int (-1) ∧
      TTLStore.getNext name (applyOp name st2 now2 op) = JsNum.int (-1) ∧
      TTLStore.clean name st2 now2
        = (TTLStore.dollarList name st2 now2).foldl
            (fun acc kv =>
              if checkFresh kv.2 now2 then acc
              else TTLStore.dollarSet name acc now2 kv.1 none (JsNum.int (-1)))
            st2 := by
  have hfr : checkFresh (JsNum.int (-1)) now = true :=
    checkFresh_int_iff.mpr (Or.inl rfl)
  have hcond : ((JsNum.int (-1)).isNaN
      || (JsNum.int (-1)).gt (TTLStore.getNext name st)) = false := by
    rw [isNaN_int, Bool.false_or]
    cases hg0 : TTLStore.getNext name st with
    | nan => exact absurd hg0 (getNext_ne_nan name st)
    | inf => rw [int_gt_inf]
    | int s0 =>
      rw [int_gt_int]
      simp only [decide_eq_false_iff_not]
      have := hs s0 hg0
      omega
  have hwrite : TTLStore.setItemUntil name st now k v (JsNum.int (-1))
      = Storage.setItem
          (Storage.setItem st (TTLStore.makeDataKey name k)
            (jsRepr (JsNum.int (-1)) ++ ':' :: jsonStringify v))
          (TTLStore.makeKey name TTLStore.nextChars) (jsRepr (JsNum.int (-1))) := by
    rw [setItemUntil_eq, dollarSet_write_eq hfr, if_neg (by rw [hcond]; simp)]
  refine ⟨?_, ?_, getNext_applyOp_keep_neg_one h02 hg2 op, ?_⟩
  · rw [hwrite, Storage.getItem_setItem_self]
    rw [show jsRepr (JsNum.int (-1)) = ['-', '1'] from by decide]
  · rw [hwrite,
      show jsRepr (JsNum.int (-1)) = intRepr (-1) from rfl,
      getNext_setItem_sentinel, if_neg (by decide)]
  · unfold TTLStore.clean
    rw [if_neg (by rw [hg2, int_gt_int]; simp only [decide_eq_true_eq]; omega)]

/-- C10 witness. -/
theorem claim_C10_witness :
    ((∀ s : ℤ, TTLStore.getNext ['m'] [] = JsNum.int s → -1 ≤ s) ∧
      (0 : ℤ) ≤ 0 ∧
      TTLStore.getNext ['m'] [(['m', ':', 'n', 'e', 'x', 't'], ['-', '1'])]
        = JsNum.int (-1)) ∧
    (Storage.getItem (TTLStore.setItemUntil ['m'] [] 0 ['a'] Json.null
          (JsNum.int (-1)))
        (TTLStore.makeKey ['m'] TTLStore.nextChars) = some ['-', '1'] ∧
      TTLStore.getNext ['m']
        (TTLStore.setItemUntil ['m'] [] 0 ['a'] Json.null (JsNum.int (-1)))
        = JsNum.int (-1) ∧
      TTLStore.getNext ['m']
        (applyOp ['m'] [(['m', ':', 'n', 'e', 'x', 't'], ['-', '1'])] 0 Op.opClean)
        = JsNum.int (-1) ∧
      TTLStore.clean ['m'] [(['m', ':', 'n', 'e', 'x', 't'], ['-', '1'])] 0
        = (TTLStore.dollarList ['m']
            [(['m', ':', 'n', 'e', 'x', 't'], ['-', '1'])] 0).foldl
            (fun acc kv =>
              if checkFresh kv.2 0 then acc
              else TTLStore.dollarSet ['m'] acc 0 kv.1 none (JsNum.int (-1)))
            [(['m', ':', 'n', 'e', 'x', 't'], ['-', '1'])]) := by
  have hs : ∀ s : ℤ, TTLStore.getNext ['m'] [] = JsNum.int s → -1 ≤ s := by
    intro s hsx
    rw [show TTLStore.getNext ['m'] [] = JsNum.inf from rfl] at hsx
    exact absurd hsx (by simp)
  exact ⟨⟨hs, by decide, by decide⟩,
    claim_C10 ['m'] [] [(['m', ':', 'n', 'e', 'x', 't'], ['-', '1'])] 0 0 ['a']
      Json.null Op.opClean hs (by decide) (by decide)⟩
